import Mathlib

/-!
Verification development for the maven-repository-builder sources
(`maven_repo_builder.py`, `artifact_list_generator.py`).

The Python code is shallowly embedded: the on-disk destination tree and the
remote repository are association lists from path (resp. URL) to file
content; the stateful fetch functions become explicit state-passing
functions on that model.  Functions of the repository that live outside the
two given source files (`maven_artifact.py`, the list builder and the
filter) are modelled from the specification and marked as such in their
doc comments.
-/

namespace MavenRepo

/-! ## Coordinates (`MavenArtifact`) -/

/-- Splits a character list at every colon, mirroring Python `str.split(':')`:
`splitCols "a:b".data = [['a'],['b']]`, and the empty list yields `[[]]`. -/
def splitCols : List Char → List (List Char)
  | [] => [[]]
  | c :: cs =>
    if c = ':' then [] :: splitCols cs
    else
      match splitCols cs with
      | [] => [[c]]
      | f :: rest => (c :: f) :: rest

/-- A Maven coordinate.  Modelled from the spec: `maven_artifact.py` is not
among the given sources; the spec defines a Coordinate as
`{group, artifact, type, classifier, version}` with `""` denoting the
missing classifier. -/
structure MavenArtifact where
  groupId : String
  artifactId : String
  artifactType : String
  classifier : String
  version : String
  deriving DecidableEq, Repr

/-- Modelled from the spec: `MavenArtifact.createFromGAV` of `maven_artifact.py`
is not among the given sources.  The spec's coordinate grammar is
`group:artifact:type[:classifier]:version`; the callers in the given sources
always pass a 4- or 5-field colon-separated string, so the model parses
exactly those two shapes and returns `none` elsewhere. -/
def MavenArtifact.createFromGAV (gav : String) : Option MavenArtifact :=
  match splitCols gav.data with
  | [g, a, t, v] => some ⟨⟨g⟩, ⟨a⟩, ⟨t⟩, "", ⟨v⟩⟩
  | [g, a, t, c, v] => some ⟨⟨g⟩, ⟨a⟩, ⟨t⟩, ⟨c⟩, ⟨v⟩⟩
  | _ => none

/-- Replaces every character `orig` by `repl`, mirroring Python
`str.replace` for one-character patterns (used for `'.'` → `'/'`). -/
def replaceChar (orig repl : Char) (s : String) : String :=
  ⟨s.data.map (fun c => if c = orig then repl else c)⟩

/-- Modelled from the spec: destination layout
`group-segments/artifact/version/...` (spec section 6); the accessor itself
lives in `maven_artifact.py`, which is not among the given sources. -/
def MavenArtifact.getDirPath (a : MavenArtifact) : String :=
  replaceChar '.' '/' a.groupId ++ "/" ++ a.artifactId ++ "/" ++ a.version

/-- Modelled from the spec: file name `artifact-version[-classifier].type`
(spec section 6); the accessor lives in `maven_artifact.py`. -/
def MavenArtifact.getArtifactFilename (a : MavenArtifact) : String :=
  a.artifactId ++ "-" ++ a.version ++
    (if a.classifier = "" then "" else "-" ++ a.classifier) ++ "." ++ a.artifactType

/-- Modelled from the spec: descriptor file name `artifact-version.pom`
(spec section 6, `.pom`-equivalent descriptor per file). -/
def MavenArtifact.getPomFilename (a : MavenArtifact) : String :=
  a.artifactId ++ "-" ++ a.version ++ ".pom"

/-- Modelled from the spec: classifier file name
`artifact-version-classifier.type` (spec section 6). -/
def MavenArtifact.getClassifierFilename (a : MavenArtifact) (c : String) : String :=
  a.artifactId ++ "-" ++ a.version ++ "-" ++ c ++ "." ++ a.artifactType

/-- Modelled from the spec: relative path of the main artifact file. -/
def MavenArtifact.getArtifactFilepath (a : MavenArtifact) : String :=
  a.getDirPath ++ "/" ++ a.getArtifactFilename

/-- Modelled from the spec: relative path of the descriptor file. -/
def MavenArtifact.getPomFilepath (a : MavenArtifact) : String :=
  a.getDirPath ++ "/" ++ a.getPomFilename

/-- Modelled from the spec: relative path of a classifier file. -/
def MavenArtifact.getClassifierFilepath (a : MavenArtifact) (c : String) : String :=
  a.getDirPath ++ "/" ++ a.getClassifierFilename c

/-- Accessor mirroring `artifact.getClassifier()`. -/
def MavenArtifact.getClassifier (a : MavenArtifact) : String := a.classifier

/-- Accessor mirroring `artifact.getArtifactType()`. -/
def MavenArtifact.getArtifactType (a : MavenArtifact) : String := a.artifactType

/-! ## File system model -/

/-- A file tree (or a remote repository): an association list from path
(or URL) to file content.  `os.path.exists` is "has an entry", reading a
file is the first entry's content. -/
abbrev FS : Type := List (String × String)

/-- Content of the file at a path, `none` when the path does not exist. -/
def lookupFS : FS → String → Option String
  | [], _ => none
  | (k, v) :: rest, p => if p = k then some v else lookupFS rest p

/-- Embeds `downloadFile` of `maven_repo_builder.py`: skip when the local
path already exists, otherwise attempt the download.  The network is the
association list `remote` from URL to content; `maven_repo_util.download`
(not among the given sources) is modelled from the spec as writing the
retrieved content on success and writing nothing on a 404 or other
transport failure (both only logged). -/
def downloadFile (remote : FS) (fileUrl fileLocalPath : String) (fs : FS) : FS :=
  if (lookupFS fs fileLocalPath).isSome then fs
  else
    match lookupFS remote fileUrl with
    | some content => (fileLocalPath, content) :: fs
    | none => fs

/-- Embeds one guarded copy of `copyArtifact` of `maven_repo_builder.py`:
`if os.path.exists(src) and not os.path.exists(dest): shutil.copyfile`.
Directory creation (`os.makedirs`) is not part of the file-content model. -/
def copyFile (sourceRepo : FS) (src dest : String) (fs : FS) : FS :=
  match lookupFS sourceRepo src with
  | some content => if (lookupFS fs dest).isSome then fs else (dest, content) :: fs
  | none => fs

/-- Embeds Python `os.path.join(dir, rel)` for the relative paths produced
by the path accessors. -/
def pathJoin (dir rel : String) : String := dir ++ "/" ++ rel

/-- Embeds `downloadArtifacts` of `maven_repo_builder.py`: main artifact,
then the descriptor unless the artifact's own file name is the descriptor
file name, then one file per additional classifier for unclassified
non-pom artifacts.  `os.makedirs` only creates directories and is not part
of the file-content model. -/
def downloadArtifacts (remote : FS) (remoteRepoUrl localRepoDir : String)
    (artifact : MavenArtifact) (classifiers : List String) (fs : FS) : FS :=
  let fs1 := downloadFile remote (remoteRepoUrl ++ "/" ++ artifact.getArtifactFilepath)
    (pathJoin localRepoDir artifact.getArtifactFilepath) fs
  let fs2 :=
    if artifact.getArtifactFilename ≠ artifact.getPomFilename then
      downloadFile remote (remoteRepoUrl ++ "/" ++ artifact.getPomFilepath)
        (pathJoin localRepoDir artifact.getPomFilepath) fs1
    else fs1
  if artifact.getArtifactType ≠ "pom" ∧ artifact.getClassifier = "" then
    classifiers.foldl (fun s c =>
      downloadFile remote (remoteRepoUrl ++ "/" ++ artifact.getClassifierFilepath c)
        (pathJoin localRepoDir (artifact.getClassifierFilepath c)) s) fs2
  else fs2

/-- Embeds `copyArtifact` of `maven_repo_builder.py`: same shape as
`downloadArtifacts` with filesystem copies instead of downloads. -/
def copyArtifact (sourceRepo : FS) (remoteRepoPath localRepoDir : String)
    (artifact : MavenArtifact) (classifiers : List String) (fs : FS) : FS :=
  let fs1 := copyFile sourceRepo (pathJoin remoteRepoPath artifact.getArtifactFilepath)
    (pathJoin localRepoDir artifact.getArtifactFilepath) fs
  let fs2 :=
    if artifact.getArtifactFilename ≠ artifact.getPomFilename then
      copyFile sourceRepo (pathJoin remoteRepoPath artifact.getPomFilepath)
        (pathJoin localRepoDir artifact.getPomFilepath) fs1
    else fs1
  if artifact.getArtifactType ≠ "pom" ∧ artifact.getClassifier = "" then
    classifiers.foldl (fun s c =>
      copyFile sourceRepo (pathJoin remoteRepoPath (artifact.getClassifierFilepath c))
        (pathJoin localRepoDir (artifact.getClassifierFilepath c)) s) fs2
  else fs2

/-- Drops a leading occurrence of `pat`, returning the remainder when `pat`
is a prefix. -/
def stripOcc : List Char → List Char → Option (List Char)
  | [], rest => some rest
  | _ :: _, [] => none
  | p :: ps, c :: cs => if c = p then stripOcc ps cs else none

/-- Fuel-driven worker for `pyReplace`. -/
def replaceAllAux (pat repl : List Char) : Nat → List Char → List Char
  | 0, cs => cs
  | _ + 1, [] => []
  | fuel + 1, c :: rest =>
    match stripOcc pat (c :: rest) with
    | some r => repl ++ replaceAllAux pat repl fuel r
    | none => c :: replaceAllAux pat repl fuel rest

/-- Embeds Python `str.replace(pat, repl)` for nonempty patterns: replaces
every non-overlapping occurrence from the left. -/
def pyReplace (s pat repl : String) : String :=
  ⟨replaceAllAux pat.data repl.data s.data.length s.data⟩

/-- Characters allowed in a URL scheme by `urlparse`. -/
def isSchemeChar (c : Char) : Bool :=
  c.isAlpha || c.isDigit || c = '+' || c = '-' || c = '.'

/-- Embeds the scheme extraction of Python `urlparse.urlparse(url)[0]`: the
lowercased text before the first `':'` when that text is nonempty and made
of scheme characters, and `""` otherwise. -/
def urlScheme (url : String) : String :=
  let before := url.data.takeWhile (fun c => c ≠ ':')
  if before.length < url.data.length ∧ before ≠ [] ∧ before.all isSchemeChar then
    ⟨before.map Char.toLower⟩
  else ""

/-- Embeds `retrieveArtifacts` of `maven_repo_builder.py`: route `http` and
`https` origins through `downloadArtifacts`, `file` origins (with
`file://` stripped) through `copyArtifact`, and log an error — fetching
nothing — for any other scheme.  The initial `os.makedirs(localRepoDir)`
only creates a directory and is not part of the file-content model. -/
def retrieveArtifacts (remote : FS) (remoteRepoUrl localRepoDir : String)
    (artifactList : List MavenArtifact) (classifiers : List String) (fs : FS) : FS :=
  let protocol := urlScheme remoteRepoUrl
  if protocol = "http" ∨ protocol = "https" then
    artifactList.foldl (fun s a =>
      downloadArtifacts remote remoteRepoUrl localRepoDir a classifiers s) fs
  else if protocol = "file" then
    let repoPath := pyReplace remoteRepoUrl "file://" ""
    artifactList.foldl (fun s a =>
      copyArtifact remote repoPath localRepoDir a classifiers s) fs
  else fs

/-! ## Fetch steps as (source, destination) operation lists

`downloadArtifacts` and `copyArtifact` are sequences of identically guarded
single-file fetches; the following reformulation as a fold over an explicit
operation list is proved equivalent below and drives the idempotence
proofs. -/

/-- The (URL, local path) pairs attempted by `downloadArtifacts`. -/
def downloadArtifactOps (remoteRepoUrl localRepoDir : String)
    (artifact : MavenArtifact) (classifiers : List String) : List (String × String) :=
  [(remoteRepoUrl ++ "/" ++ artifact.getArtifactFilepath,
    pathJoin localRepoDir artifact.getArtifactFilepath)]
  ++ (if artifact.getArtifactFilename ≠ artifact.getPomFilename then
        [(remoteRepoUrl ++ "/" ++ artifact.getPomFilepath,
          pathJoin localRepoDir artifact.getPomFilepath)]
      else [])
  ++ (if artifact.getArtifactType ≠ "pom" ∧ artifact.getClassifier = "" then
        classifiers.map (fun c =>
          (remoteRepoUrl ++ "/" ++ artifact.getClassifierFilepath c,
            pathJoin localRepoDir (artifact.getClassifierFilepath c)))
      else [])

/-- The (source path, local path) pairs attempted by `copyArtifact`. -/
def copyArtifactOps (remoteRepoPath localRepoDir : String)
    (artifact : MavenArtifact) (classifiers : List String) : List (String × String) :=
  [(pathJoin remoteRepoPath artifact.getArtifactFilepath,
    pathJoin localRepoDir artifact.getArtifactFilepath)]
  ++ (if artifact.getArtifactFilename ≠ artifact.getPomFilename then
        [(pathJoin remoteRepoPath artifact.getPomFilepath,
          pathJoin localRepoDir artifact.getPomFilepath)]
      else [])
  ++ (if artifact.getArtifactType ≠ "pom" ∧ artifact.getClassifier = "" then
        classifiers.map (fun c =>
          (pathJoin remoteRepoPath (artifact.getClassifierFilepath c),
            pathJoin localRepoDir (artifact.getClassifierFilepath c)))
      else [])

/-- Runs a list of guarded single-file fetches. -/
def runFetchOps (remote : FS) (ops : List (String × String)) (fs : FS) : FS :=
  ops.foldl (fun s op => downloadFile remote op.1 op.2 s) fs

/-! ## The layered index and `generateArtifactList` -/

/-- An artifact spec of the layered index: the origin URL it was discovered
under and its recorded classifier set (`""` is the main artifact).  Python
keeps the classifiers in a `set`; the model keeps them in a list and
quantifies over permutations where iteration order could matter. -/
structure ArtSpec where
  url : String
  classifiers : List String
  deriving DecidableEq, Repr

/-- version → spec level of the layered index. -/
abbrev VersionList : Type := List (String × ArtSpec)

/-- priority → version level of the layered index. -/
abbrev PriorityList : Type := List (Nat × VersionList)

/-- The layered index `GAT → priority → version → ArtSpec` built by the
list builder.  Python nests dicts; the model nests association lists and
quantifies over permutations where iteration order could matter. -/
abbrev ArtifactList : Type := List (String × PriorityList)

/-- Appends one artifact under a URL key, mirroring
`urlToMAList.setdefault(url, []).append(artifact)`. -/
def appendToUrlMap (m : List (String × List MavenArtifact)) (url : String)
    (a : MavenArtifact) : List (String × List MavenArtifact) :=
  match m with
  | [] => [(url, [a])]
  | (u, l) :: rest =>
    if u = url then (u, l ++ [a]) :: rest else (u, l) :: appendToUrlMap rest url a

/-- Embeds the flattening loop of `generateArtifactList` of
`artifact_list_generator.py`: walk GAT → priority → version → spec, and for
every classifier that is `""` or with all-classifiers mode on, append
`createFromGAV(gat[:classifier]:version)` under the spec's URL. -/
def flattenArtifactList (allclassifiers : Bool) (artifactList : ArtifactList) :
    List (String × List MavenArtifact) :=
  artifactList.foldl (fun m gpl =>
    gpl.2.foldl (fun m pvl =>
      pvl.2.foldl (fun m vs =>
        vs.2.classifiers.foldl (fun m c =>
          if c = "" ∨ allclassifiers = true then
            match MavenArtifact.createFromGAV
                (gpl.1 ++ (if c ≠ "" then ":" ++ c else "") ++ ":" ++ vs.1) with
            | some art => appendToUrlMap m vs.2.url art
            | none => m
          else m) m) m) m) []

/-- The flat (URL, artifact) pairs of the flattening loop, in append order;
`flattenArtifactList` is proved equal to grouping these by URL. -/
def flatPairs (allclassifiers : Bool) (artifactList : ArtifactList) :
    List (String × MavenArtifact) :=
  artifactList.flatMap (fun gpl =>
    gpl.2.flatMap (fun pvl =>
      pvl.2.flatMap (fun vs =>
        vs.2.classifiers.filterMap (fun c =>
          if c = "" ∨ allclassifiers = true then
            match MavenArtifact.createFromGAV
                (gpl.1 ++ (if c ≠ "" then ":" ++ c else "") ++ ":" ++ vs.1) with
            | some art => some (vs.2.url, art)
            | none => none
          else none))))

/-- Groups flat (URL, artifact) pairs with `appendToUrlMap`. -/
def groupPairs (ps : List (String × MavenArtifact)) : List (String × List MavenArtifact) :=
  ps.foldl (fun m p => appendToUrlMap m p.1 p.2) []

/-- The priorities of a priority list under which a version is present. -/
def prioritiesContaining (pl : PriorityList) (v : String) : List Nat :=
  (pl.filter (fun pvl => pvl.2.any (fun vs => vs.1 = v))).map Prod.fst

/-- Whether priority `p` is the winning (lowest) priority for version `v`. -/
def isWinner (pl : PriorityList) (p : Nat) (v : String) : Bool :=
  (prioritiesContaining pl v).all (fun q => p ≤ q)

/-- Modelled from the spec: the Resolver/Reducer of section 4.2
(`ArtifactListBuilder`/`Filter`, not among the given sources) keeps, for
each version present at multiple priorities, only the entry of the lowest
priority-rank number, without merging classifier sets across priorities. -/
def reducePriorities (pl : PriorityList) : PriorityList :=
  pl.map (fun pvl => (pvl.1, pvl.2.filter (fun vs => isWinner pl pvl.1 vs.1)))

/-- Modelled from the spec: priority reduction applied to every GAT of the
layered index (spec section 4.2). -/
def reduceArtifactList (L : ArtifactList) : ArtifactList :=
  L.map (fun gpl => (gpl.1, reducePriorities gpl.2))

/-- The resolution pipeline behind `generateArtifactList`: priority
reduction (modelled from the spec, section 4.2) followed by the flattening
loop of `artifact_list_generator.py`. -/
def resolutionPipeline (allclassifiers : Bool) (L : ArtifactList) :
    List (String × List MavenArtifact) :=
  flattenArtifactList allclassifiers (reduceArtifactList L)

/-- Membership of a (URL, artifact) pair in the grouped url-to-artifact
map. -/
def memUrlMap (m : List (String × List MavenArtifact)) (url : String)
    (art : MavenArtifact) : Prop :=
  ∃ l, (url, l) ∈ m ∧ art ∈ l

/-- A string without colons — a single field of a GAV string. -/
def noColon (s : String) : Prop := ':' ∉ s.data

instance (s : String) : Decidable (noColon s) := by
  unfold noColon
  infer_instance

/-- Joins fields with colons — the left inverse of `splitCols`. -/
def joinCols : List (List Char) → List Char
  | [] => []
  | [f] => f
  | f :: rest => f ++ ':' :: joinCols rest

/-- A well-formed GAT key: exactly three colon-separated fields, as built
by the list builder from `group:artifact:type`. -/
def gatOk (gat : String) : Prop := (splitCols gat.data).length = 3

instance (gat : String) : Decidable (gatOk gat) := by
  unfold gatOk
  infer_instance

/-- Classifiers recorded on a spec contain no colon. -/
def specWF (s : ArtSpec) : Prop := ∀ c ∈ s.classifiers, noColon c

instance (s : ArtSpec) : Decidable (specWF s) := by
  unfold specWF
  infer_instance

/-- A version level with unique version keys, colon-free versions and
well-formed specs. -/
def versionListWF (vl : VersionList) : Prop :=
  ((vl.map Prod.fst).Nodup ∧ ∀ e ∈ vl, noColon e.1 ∧ specWF e.2 : Prop)

instance (vl : VersionList) : Decidable (versionListWF vl) := by
  unfold versionListWF
  infer_instance

/-- A priority level with unique priority keys and well-formed version
levels. -/
def priorityListWF (pl : PriorityList) : Prop :=
  ((pl.map Prod.fst).Nodup ∧ ∀ e ∈ pl, versionListWF e.2 : Prop)

instance (pl : PriorityList) : Decidable (priorityListWF pl) := by
  unfold priorityListWF
  infer_instance

/-- Well-formedness of a layered index: the dict-keyed levels have unique
keys (Python dicts), GAT keys have three fields, and versions and
classifiers are colon-free. -/
def indexWF (L : ArtifactList) : Prop :=
  ((L.map Prod.fst).Nodup ∧ ∀ e ∈ L, gatOk e.1 ∧ priorityListWF e.2 : Prop)

instance (L : ArtifactList) : Decidable (indexWF L) := by
  unfold indexWF
  infer_instance

/-- The options consumed by `generateArtifactList`: the `--config` /
`--classifiers` / `--allclassifiers` values relevant to list generation. -/
structure GenOptions where
  config : Option String
  classifiers : String
  allclassifiers : Bool
  deriving DecidableEq, Repr

/-- Embeds `generateArtifactList` of `artifact_list_generator.py`: it first
overwrites `options.allclassifiers` with `options.classifiers == '__all__'`,
then flattens the built-and-filtered layered index into a url-to-artifact
map.  The configuration loading, list building and filtering of
`_generateArtifactList` live outside the given sources and are abstracted
as the function argument `pipeline` from the (mutated) options to the
layered index they produce. -/
def generateArtifactList (options : GenOptions)
    (pipeline : GenOptions → ArtifactList) : List (String × List MavenArtifact) :=
  let options' := { options with allclassifiers := options.classifiers = "__all__" }
  flattenArtifactList options'.allclassifiers (pipeline options')

/-! ## Checksum generation -/

/-- The basename characters after the last `'/'`. -/
def afterLastSlash (cs : List Char) : List Char :=
  (cs.reverse.takeWhile (fun c => c ≠ '/')).reverse

/-- Embeds Python `os.path.splitext(p)[1]` (posix): the extension starts at
the last dot of the basename, provided some non-dot character of the
basename precedes that dot. -/
def splitextExt (p : String) : String :=
  let b := afterLastSlash p.data
  if (b.dropWhile (fun c => c = '.')).contains '.' then
    ⟨'.' :: (b.reverse.takeWhile (fun c => c ≠ '.')).reverse⟩
  else ""

/-- Whether a path carries a digest extension (`.md5` or `.sha1`). -/
def isSidecarPath (p : String) : Prop :=
  splitextExt p = ".md5" ∨ splitextExt p = ".sha1"

instance (p : String) : Decidable (isSidecarPath p) := by
  unfold isSidecarPath; infer_instance

/-- Embeds `generateChecksumFiles` of `maven_repo_builder.py`: skip digest
files and non-files; then for `.md5` and `.sha1` in that order, write
`digest(content) + '\n'` to `<file>.<ext>` unless that sidecar already
exists.  The digest algorithms (`hashlib`, `maven_repo_util.getChecksum`)
are external and passed in as `md5f` and `sha1f`. -/
def generateChecksumFiles (md5f sha1f : String → String) (filepath : String)
    (fs : FS) : FS :=
  if isSidecarPath filepath then fs
  else
    match lookupFS fs filepath with
    | none => fs
    | some content =>
      let fs1 :=
        if (lookupFS fs (filepath ++ ".md5")).isSome then fs
        else (filepath ++ ".md5", md5f content ++ "\n") :: fs
      if (lookupFS fs1 (filepath ++ ".sha1")).isSome then fs1
      else (filepath ++ ".sha1", sha1f content ++ "\n") :: fs1

/-- Embeds `generateChecksums` of `maven_repo_builder.py`: `os.walk` the
destination tree and run `generateChecksumFiles` on every file.  The walk's
per-directory file lists are snapshotted before any sidecar is written, so
the walked paths are exactly the paths present initially. -/
def generateChecksums (md5f sha1f : String → String) (fs : FS) : FS :=
  (fs.map Prod.fst).foldl (fun s p => generateChecksumFiles md5f sha1f p s) fs

/-- The walk of `generateChecksums` over an explicit path list (the
per-directory file lists that `os.walk` snapshotted). -/
def runChecksumFold (md5f sha1f : String → String) (paths : List String) (fs : FS) : FS :=
  paths.foldl (fun s p => generateChecksumFiles md5f sha1f p s) fs

/-- Claim C3 as stated: after the run, every non-sidecar file has both
sidecars holding exactly `digest + '\n'`, and every pre-existing file (in
particular every pre-existing sidecar) is unchanged — for every starting
tree. -/
def checksumClaimProp (md5f sha1f : String → String) (fs : FS) : Prop :=
  (∀ p c, lookupFS fs p = some c → ¬ isSidecarPath p →
    lookupFS (generateChecksums md5f sha1f fs) (p ++ ".md5") = some (md5f c ++ "\n") ∧
    lookupFS (generateChecksums md5f sha1f fs) (p ++ ".sha1") = some (sha1f c ++ "\n")) ∧
  (∀ p c, lookupFS fs p = some c →
    lookupFS (generateChecksums md5f sha1f fs) p = some c)

/-! ## The dependency-list line parser (`depListToArtifactList`)

`depListToArtifactList` strips `#`-comments, strips whitespace and runs
`re.search` with the pattern
`(([\w\-.]+:){3}([\w\-.]+:)?([\d][\w\-.]+))(:[\w]*\S)?`, keeping
`group(1)`.  Because `':'` is not a `[\w\-.]` character, every greedy
run of the pattern is forced (a field run always extends to the next
non-field character), so the backtracking search is deterministic: the only
choice point is the optional classifier group, tried with the group first.
The trailing scope group is optional and outside `group(1)`, so it affects
neither match success nor the extracted text and is not modelled. -/

/-- Python 2 `\w` without `re.UNICODE`: ASCII letters, digits, underscore. -/
def isWordChar (c : Char) : Bool := c.isAlphanum || c = '_'

/-- The character class `[\w\-.]` of the coordinate pattern. -/
def isFieldChar (c : Char) : Bool := isWordChar c || c = '-' || c = '.'

/-- Longest prefix of `[\w\-.]` characters, with the remainder. -/
def spanField : List Char → List Char × List Char
  | [] => ([], [])
  | c :: cs =>
    if isFieldChar c then
      match spanField cs with
      | (run, rest) => (c :: run, rest)
    else ([], c :: cs)

/-- One mandatory group `[\w\-.]+:`: a nonempty field run followed by a
colon; returns the run and the text after the colon. -/
def matchFieldColon (cs : List Char) : Option (List Char × List Char) :=
  match spanField cs with
  | ([], _) => none
  | (run, ':' :: rest) => some (run, rest)
  | (_, _) => none

/-- The version token `[\d][\w\-.]+`: a digit followed by a nonempty field
run. -/
def matchVer (cs : List Char) : Option (List Char) :=
  match cs with
  | [] => none
  | d :: rest =>
    if d.isDigit then
      match spanField rest with
      | ([], _) => none
      | (run, _) => some (d :: run)
    else none

/-- A match of the coordinate pattern anchored at the start of `cs`,
returning the `group(1)` text: three `[\w\-.]+:` groups, then the greedy
optional `([\w\-.]+:)?` (retried without the group when the version token
fails after it), then `[\d][\w\-.]+`. -/
def matchGAVAt (cs : List Char) : Option (List Char) :=
  match matchFieldColon cs with
  | none => none
  | some (f1, r1) =>
    match matchFieldColon r1 with
    | none => none
    | some (f2, r2) =>
      match matchFieldColon r2 with
      | none => none
      | some (f3, r3) =>
        let tl :=
          match matchFieldColon r3 with
          | some (f4, r4) =>
            match matchVer r4 with
            | some ver => some (f4 ++ ':' :: ver)
            | none => matchVer r3
          | none => matchVer r3
        match tl with
        | some t => some (f1 ++ ':' :: f2 ++ ':' :: f3 ++ ':' :: t)
        | none => none

/-- `re.search` semantics: the match at the leftmost position where the
pattern matches. -/
def searchGAV : List Char → Option (List Char)
  | [] => none
  | c :: cs =>
    match matchGAVAt (c :: cs) with
    | some g => some g
    | none => searchGAV cs

/-- Embeds `regexComment.sub('', line)` composed with the subsequent
`strip()`-to-come: text up to the first `'#'` (the pattern `#.*$` removes
everything from `'#'` to the end of the single line). -/
def stripComment (line : String) : String :=
  ⟨line.data.takeWhile (fun c => c ≠ '#')⟩

/-- Python `str.isspace` characters stripped by `str.strip()`. -/
def pyIsSpace (c : Char) : Bool :=
  c = ' ' || c = '\t' || c = '\n' || c = '\r' || c = '\x0b' || c = '\x0c'

/-- Embeds Python `str.strip()`. -/
def pyStrip (s : String) : String :=
  ⟨((s.data.dropWhile pyIsSpace).reverse.dropWhile pyIsSpace).reverse⟩

/-- One iteration of the `depListToArtifactList` loop: strip the comment,
strip whitespace, search for the coordinate pattern and build the artifact
from `group(1)`.  The Python code appends `createFromGAV(gav.group(1))`
unconditionally; `group(1)` is always a 4- or 5-field colon-separated
string, on which the modelled `createFromGAV` always succeeds. -/
def parseDepLine (line : String) : Option MavenArtifact :=
  match searchGAV (pyStrip (stripComment line)).data with
  | some g1 => MavenArtifact.createFromGAV ⟨g1⟩
  | none => none

/-- Embeds `depListToArtifactList` of `maven_repo_builder.py`. -/
def depListToArtifactList (depList : List String) : List MavenArtifact :=
  depList.filterMap parseDepLine

/-- A nonempty field over the coordinate character class. -/
def fieldOk (f : List Char) : Bool := decide (f ≠ []) && f.all isFieldChar

/-- Whether a field can be consumed by the version token `[\d][\w\-.]+`:
it starts with a digit and has at least two characters. -/
def digitToken : List Char → Bool
  | d :: _ :: _ => d.isDigit
  | _ => false

/-- Modelled from the spec: the documented coordinate-line grammar of
section 4.1, `group:artifact:type[:classifier]:version[:scope]` with
`#`-comments stripped and surrounding whitespace ignored; fields use the
coordinate pattern's character class.  A nonempty stripped line is
malformed exactly when this is false. -/
def matchesCoordinateGrammar (line : String) : Bool :=
  let fields := splitCols (pyStrip (stripComment line)).data
  (fields.length == 4 || fields.length == 5 || fields.length == 6) &&
    fields.all fieldOk

/-! ## The repository-builder entry point (`main`) -/

/-- The observable state of one positional list-file argument: missing
(`os.path.isfile` false), readable with its lines, or raising `IOError`
when read. -/
inductive ListFileState where
  | absent
  | readable (lines : List String)
  | readError
  deriving DecidableEq, Repr

/-- How a run of `main` terminates early: `sys.exit(usage)` for the missing
required argument (non-zero exit), or the bare `sys.exit()` (status 0)
issued when reading a list file raises `IOError`. -/
inductive RunExit where
  | usage
  | ioError
  deriving DecidableEq, Repr

/-- Embeds the list-file reading loop of `main`: a missing file is logged
and skipped, a readable file contributes its parsed artifacts, and an
`IOError` while reading is logged and terminates the run via `sys.exit()`. -/
def readListFiles : List (String × ListFileState) → Except RunExit (List MavenArtifact)
  | [] => Except.ok []
  | (_, ListFileState.absent) :: rest => readListFiles rest
  | (_, ListFileState.readable lines) :: rest =>
    match readListFiles rest with
    | Except.ok arts => Except.ok (depListToArtifactList lines ++ arts)
    | Except.error e => Except.error e
  | (_, ListFileState.readError) :: _ => Except.error RunExit.ioError

/-- Embeds `main` of `maven_repo_builder.py` after option parsing: without
`--config`, no positional list file is a fatal usage error, otherwise the
list files are read (an `IOError` is fatal via `sys.exit()`), the artifacts
fetched and checksums generated; with `--config`, the generated
url-to-artifact lists (the configuration-driven generation is outside the
given sources and passed in directly) are fetched per origin and checksums
generated. -/
def repoBuilderMain (md5f sha1f : String → String) (remote : FS)
    (config : Option (List (String × List MavenArtifact)))
    (args : List (String × ListFileState))
    (url outputDir : String) (classifiers : List String) (fs : FS) :
    Except RunExit FS :=
  match config with
  | none =>
    if args.length < 1 then Except.error RunExit.usage
    else
      match readListFiles args with
      | Except.error e => Except.error e
      | Except.ok artifacts =>
        Except.ok (generateChecksums md5f sha1f
          (retrieveArtifacts remote url outputDir artifacts classifiers fs))
  | some artifactList =>
    Except.ok (generateChecksums md5f sha1f
      (artifactList.foldl (fun s ra =>
        retrieveArtifacts remote ra.1 outputDir ra.2 classifiers s) fs))

/-- Claim C7 as stated: the usage error on missing required input is the
only fatal termination of a run. -/
def onlyUsageFatalProp (md5f sha1f : String → String) (remote : FS) : Prop :=
  ∀ config args url outputDir classifiers fs e,
    repoBuilderMain md5f sha1f remote config args url outputDir classifiers fs =
      Except.error e →
    e = RunExit.usage ∧ config = none ∧ args = []

/-! ## Lemmas: the fetch layer -/

theorem downloadFile_of_exists (remote : FS) (src dest : String) (fs : FS)
    (h : (lookupFS fs dest).isSome) : downloadFile remote src dest fs = fs := by
  unfold downloadFile
  simp [h]

theorem copyFile_eq_downloadFile (repo : FS) (src dest : String) (fs : FS) :
    copyFile repo src dest fs = downloadFile repo src dest fs := by
  unfold copyFile downloadFile
  cases hr : lookupFS repo src <;> by_cases hd : (lookupFS fs dest).isSome <;> simp [hr, hd]

theorem downloadFile_persist (remote : FS) (src dest : String) (fs : FS) (q c : String)
    (h : lookupFS fs q = some c) : lookupFS (downloadFile remote src dest fs) q = some c := by
  unfold downloadFile
  by_cases hd : (lookupFS fs dest).isSome
  · simp [hd, h]
  · simp only [hd, if_false, Bool.false_eq_true]
    cases hr : lookupFS remote src with
    | none => exact h
    | some content =>
      show lookupFS ((dest, content) :: fs) q = some c
      unfold lookupFS
      by_cases hq : q = dest
      · subst hq
        rw [h] at hd
        simp at hd
      · simp [hq, h]

theorem downloadFile_miss (remote : FS) (src dest : String) (fs : FS)
    (h : lookupFS (downloadFile remote src dest fs) dest = none) :
    lookupFS remote src = none ∧ downloadFile remote src dest fs = fs := by
  unfold downloadFile at h ⊢
  by_cases hd : (lookupFS fs dest).isSome
  · simp only [hd, if_true] at h
    rw [h] at hd
    simp at hd
  · simp only [hd, if_false, Bool.false_eq_true] at h ⊢
    cases hr : lookupFS remote src with
    | none => simp
    | some content =>
      rw [hr] at h
      unfold lookupFS at h
      simp at h

theorem runFetchOps_cons (remote : FS) (op : String × String)
    (ops : List (String × String)) (fs : FS) :
    runFetchOps remote (op :: ops) fs =
      runFetchOps remote ops (downloadFile remote op.1 op.2 fs) := rfl

theorem runFetchOps_append (remote : FS) (ops₁ ops₂ : List (String × String)) (fs : FS) :
    runFetchOps remote (ops₁ ++ ops₂) fs =
      runFetchOps remote ops₂ (runFetchOps remote ops₁ fs) :=
  List.foldl_append _ _ _ _

theorem runFetchOps_persist (remote : FS) (ops : List (String × String)) (fs : FS)
    (q c : String) (h : lookupFS fs q = some c) :
    lookupFS (runFetchOps remote ops fs) q = some c := by
  induction ops generalizing fs with
  | nil => exact h
  | cons op ops ih =>
    rw [runFetchOps_cons]
    exact ih _ (downloadFile_persist _ _ _ _ _ _ h)

theorem downloadFile_fix (remote : FS) (op : String × String)
    (ops : List (String × String)) (fs : FS) :
    downloadFile remote op.1 op.2
        (runFetchOps remote ops (downloadFile remote op.1 op.2 fs)) =
      runFetchOps remote ops (downloadFile remote op.1 op.2 fs) := by
  by_cases h : (lookupFS (runFetchOps remote ops (downloadFile remote op.1 op.2 fs)) op.2).isSome
  · exact downloadFile_of_exists _ _ _ _ h
  · have hnone : lookupFS (runFetchOps remote ops (downloadFile remote op.1 op.2 fs)) op.2 = none := by
      cases heq : lookupFS (runFetchOps remote ops (downloadFile remote op.1 op.2 fs)) op.2 with
      | none => rfl
      | some c => rw [heq] at h; simp at h
    have ht : lookupFS (downloadFile remote op.1 op.2 fs) op.2 = none := by
      cases heq : lookupFS (downloadFile remote op.1 op.2 fs) op.2 with
      | none => rfl
      | some c =>
        rw [runFetchOps_persist remote ops _ _ _ heq] at hnone
        cases hnone
    obtain ⟨hre, -⟩ := downloadFile_miss _ _ _ _ ht
    unfold downloadFile
    simp [hnone, hre]

theorem runFetchOps_idem (remote : FS) (ops : List (String × String)) (fs : FS) :
    runFetchOps remote ops (runFetchOps remote ops fs) = runFetchOps remote ops fs := by
  induction ops generalizing fs with
  | nil => rfl
  | cons op ops ih =>
    rw [runFetchOps_cons, runFetchOps_cons, downloadFile_fix]
    exact ih _

theorem downloadArtifacts_eq_runOps (remote : FS) (u d : String) (a : MavenArtifact)
    (cs : List String) (fs : FS) :
    downloadArtifacts remote u d a cs fs =
      runFetchOps remote (downloadArtifactOps u d a cs) fs := by
  unfold downloadArtifacts downloadArtifactOps runFetchOps
  rw [List.foldl_append, List.foldl_append]
  by_cases h1 : a.getArtifactFilename ≠ a.getPomFilename <;>
    by_cases h2 : a.getArtifactType ≠ "pom" ∧ a.getClassifier = "" <;>
      simp [h1, h2, List.foldl_map]

theorem copyArtifact_eq_runOps (repo : FS) (p d : String) (a : MavenArtifact)
    (cs : List String) (fs : FS) :
    copyArtifact repo p d a cs fs = runFetchOps repo (copyArtifactOps p d a cs) fs := by
  unfold copyArtifact copyArtifactOps runFetchOps
  rw [List.foldl_append, List.foldl_append]
  by_cases h1 : a.getArtifactFilename ≠ a.getPomFilename <;>
    by_cases h2 : a.getArtifactType ≠ "pom" ∧ a.getClassifier = "" <;>
      simp [h1, h2, List.foldl_map, copyFile_eq_downloadFile]

theorem foldl_downloadArtifacts_eq_runOps (remote : FS) (u d : String)
    (artifacts : List MavenArtifact) (cs : List String) (fs : FS) :
    artifacts.foldl (fun s a => downloadArtifacts remote u d a cs s) fs =
      runFetchOps remote (artifacts.flatMap (fun a => downloadArtifactOps u d a cs)) fs := by
  induction artifacts generalizing fs with
  | nil => rfl
  | cons a as ih =>
    rw [List.foldl_cons, List.flatMap_cons, runFetchOps_append, ih,
      downloadArtifacts_eq_runOps]

theorem foldl_copyArtifact_eq_runOps (repo : FS) (p d : String)
    (artifacts : List MavenArtifact) (cs : List String) (fs : FS) :
    artifacts.foldl (fun s a => copyArtifact repo p d a cs s) fs =
      runFetchOps repo (artifacts.flatMap (fun a => copyArtifactOps p d a cs)) fs := by
  induction artifacts generalizing fs with
  | nil => rfl
  | cons a as ih =>
    rw [List.foldl_cons, List.flatMap_cons, runFetchOps_append, ih,
      copyArtifact_eq_runOps]

theorem retrieveArtifacts_eq_runOps (remote : FS) (url d : String)
    (artifacts : List MavenArtifact) (cs : List String) (fs : FS) :
    retrieveArtifacts remote url d artifacts cs fs =
      runFetchOps remote
        (if urlScheme url = "http" ∨ urlScheme url = "https" then
          artifacts.flatMap (fun a => downloadArtifactOps url d a cs)
        else if urlScheme url = "file" then
          artifacts.flatMap (fun a => copyArtifactOps (pyReplace url "file://" "") d a cs)
        else []) fs := by
  unfold retrieveArtifacts
  by_cases h1 : urlScheme url = "http" ∨ urlScheme url = "https"
  · simp only [h1, if_true]
    exact foldl_downloadArtifacts_eq_runOps _ _ _ _ _ _
  · by_cases h2 : urlScheme url = "file"
    · simp only [h1, h2, if_false, if_true]
      exact foldl_copyArtifact_eq_runOps _ _ _ _ _ _
    · simp only [h1, h2, if_false]
      rfl

/-! ## Claim theorems: fetch idempotence and transport selection -/

/-- Claim C2: a second fetch run over a destination tree populated by a
first run with the same inputs changes nothing (zero writes), a fetch run
never overwrites an existing destination file, and both per-file transports
(`downloadFile`, and the guarded copy of `copyArtifact`) skip any file
whose destination path already exists. -/
theorem fetch_idempotence (remote : FS) (url dir : String)
    (artifacts : List MavenArtifact) (classifiers : List String) (fs : FS) :
    retrieveArtifacts remote url dir artifacts classifiers
        (retrieveArtifacts remote url dir artifacts classifiers fs) =
      retrieveArtifacts remote url dir artifacts classifiers fs ∧
    (∀ p c, lookupFS fs p = some c →
      lookupFS (retrieveArtifacts remote url dir artifacts classifiers fs) p = some c) ∧
    (∀ src dest, (lookupFS fs dest).isSome → downloadFile remote src dest fs = fs) ∧
    (∀ src dest, (lookupFS fs dest).isSome → copyFile remote src dest fs = fs) := by
  refine ⟨?_, ?_, ?_, ?_⟩
  · rw [retrieveArtifacts_eq_runOps, retrieveArtifacts_eq_runOps]
    exact runFetchOps_idem _ _ _
  · intro p c h
    rw [retrieveArtifacts_eq_runOps]
    exact runFetchOps_persist _ _ _ _ _ h
  · intro src dest h
    exact downloadFile_of_exists _ _ _ _ h
  · intro src dest h
    rw [copyFile_eq_downloadFile]
    exact downloadFile_of_exists _ _ _ _ h

/-- Witness for `fetch_idempotence` at a concrete populated tree. -/
theorem fetch_idempotence_witness :
    lookupFS [("d", "x")] "d" = some "x" ∧
    lookupFS (retrieveArtifacts [] "https://host/repo" "out" [] [] [("d", "x")]) "d" =
      some "x" :=
  ⟨rfl, (fetch_idempotence [] "https://host/repo" "out" [] [] [("d", "x")]).2.1 "d" "x" rfl⟩

/-- Claim C5: `retrieveArtifacts` routes `http`/`https` origins through the
download path, routes `file` origins (with `file://` removed) through the
filesystem copy path, fetches zero files for any other scheme such as
`ftp`, and an unknown-scheme origin does not disturb what later calls for
other origins fetch. -/
theorem transport_selection (remote : FS) (dir url₂ : String)
    (artifacts arts₂ : List MavenArtifact) (cls : List String) (fs : FS) :
    retrieveArtifacts remote "https://host/repo" dir artifacts cls fs =
      artifacts.foldl (fun s a =>
        downloadArtifacts remote "https://host/repo" dir a cls s) fs ∧
    retrieveArtifacts remote "http://host/repo" dir artifacts cls fs =
      artifacts.foldl (fun s a =>
        downloadArtifacts remote "http://host/repo" dir a cls s) fs ∧
    retrieveArtifacts remote "file:///tmp/repo" dir artifacts cls fs =
      artifacts.foldl (fun s a => copyArtifact remote "/tmp/repo" dir a cls s) fs ∧
    retrieveArtifacts remote "ftp://host/repo" dir artifacts cls fs = fs ∧
    (∀ u, urlScheme u ≠ "http" → urlScheme u ≠ "https" → urlScheme u ≠ "file" →
      retrieveArtifacts remote u dir artifacts cls fs = fs) ∧
    retrieveArtifacts remote url₂ dir arts₂ cls
        (retrieveArtifacts remote "ftp://host/repo" dir artifacts cls fs) =
      retrieveArtifacts remote url₂ dir arts₂ cls fs := by
  have hunknown : ∀ u, urlScheme u ≠ "http" → urlScheme u ≠ "https" → urlScheme u ≠ "file" →
      retrieveArtifacts remote u dir artifacts cls fs = fs := by
    intro u h1 h2 h3
    unfold retrieveArtifacts
    simp [h1, h2, h3]
  have hftp : retrieveArtifacts remote "ftp://host/repo" dir artifacts cls fs = fs := by
    have hs : urlScheme "ftp://host/repo" = "ftp" := by decide
    exact hunknown _ (by rw [hs]; decide) (by rw [hs]; decide) (by rw [hs]; decide)
  refine ⟨?_, ?_, ?_, hftp, hunknown, ?_⟩
  · unfold retrieveArtifacts
    have hs : urlScheme "https://host/repo" = "https" := by decide
    simp [hs]
  · unfold retrieveArtifacts
    have hs : urlScheme "http://host/repo" = "http" := by decide
    simp [hs]
  · unfold retrieveArtifacts
    have hs : urlScheme "file:///tmp/repo" = "file" := by decide
    have hp : pyReplace "file:///tmp/repo" "file://" "" = "/tmp/repo" := by decide
    simp [hs, hp]
  · rw [hftp]

/-- Witness for `transport_selection`: the unknown-scheme clause applied to
a concrete `ftp` origin. -/
theorem transport_selection_witness :
    retrieveArtifacts [] "ftp://other/repo" "out" [] [] [] = [] :=
  (transport_selection [] "out" "x" [] [] [] []).2.2.2.2.1 "ftp://other/repo"
    (by decide) (by decide) (by decide)

/-! ## Claim theorems: the descriptor-skip condition -/

theorem filename_eq_iff (a : MavenArtifact) :
    a.getArtifactFilename = a.getPomFilename ↔
      (a.artifactType = "pom" ∧ a.classifier = "") := by
  unfold MavenArtifact.getArtifactFilename MavenArtifact.getPomFilename
  have hdot : ("." : String).data = ['.'] := rfl
  have hpom : (".pom" : String).data = ['.', 'p', 'o', 'm'] := rfl
  have hdash : ("-" : String).data = ['-'] := rfl
  have hnil : ("" : String).data = [] := rfl
  by_cases hc : a.classifier = ""
  · rw [if_pos hc, String.ext_iff]
    simp only [String.data_append, hdot, hpom, hnil, List.append_assoc, List.nil_append,
      List.singleton_append, List.append_right_inj, List.cons.injEq, true_and]
    constructor
    · intro h
      exact ⟨String.ext_iff.mpr h, hc⟩
    · intro h
      exact String.ext_iff.mp h.1
  · rw [if_neg hc, String.ext_iff]
    simp only [String.data_append, hdot, hpom, hdash, List.append_assoc, List.nil_append,
      List.singleton_append, List.append_right_inj, List.cons.injEq]
    simp [hc]

/-- Counterexample to claim C6 as stated: for the classified descriptor
coordinate `g:a:pom:sources:1` the type equals the descriptor type `pom`,
yet both transports still fetch the descriptor file `a-1.pom` (because the
code compares file names, not types). -/
theorem descriptor_skip_counterexample :
    (MavenArtifact.mk "g" "a" "pom" "sources" "1").getArtifactType = "pom" ∧
    lookupFS
      (downloadArtifacts [("u/g/a/1/a-1.pom", "P")] "u" "o"
        (MavenArtifact.mk "g" "a" "pom" "sources" "1") [] [])
      "o/g/a/1/a-1.pom" = some "P" ∧
    lookupFS
      (copyArtifact [("r/g/a/1/a-1.pom", "P")] "r" "o"
        (MavenArtifact.mk "g" "a" "pom" "sources" "1") [] [])
      "o/g/a/1/a-1.pom" = some "P" := by
  refine ⟨rfl, ?_, ?_⟩ <;> decide

/-- Claim C6 (amended): in both transports the descriptor fetch is guarded
by `getArtifactFilename != getPomFilename`, and that file-name equality
holds exactly when the type is the descriptor type `pom` AND the
classifier is empty — so the skip is not independent of the classifier.
With no additional classifiers requested, each transport attempts exactly
one file when the artifact's own file is the descriptor and exactly two
files otherwise. -/
theorem descriptor_skip_condition (a : MavenArtifact) :
    (a.getArtifactFilename = a.getPomFilename ↔
      (a.artifactType = "pom" ∧ a.classifier = "")) ∧
    (∀ u d, (downloadArtifactOps u d a []).length =
      if a.artifactType = "pom" ∧ a.classifier = "" then 1 else 2) ∧
    (∀ p d, (copyArtifactOps p d a []).length =
      if a.artifactType = "pom" ∧ a.classifier = "" then 1 else 2) := by
  have hiff := filename_eq_iff a
  refine ⟨hiff, ?_, ?_⟩ <;> intro x y <;>
    by_cases h : a.artifactType = "pom" ∧ a.classifier = "" <;>
      simp [downloadArtifactOps, copyArtifactOps, h, hiff]

/-! ## Claim theorems: fatal terminations of `main` -/

theorem readListFiles_error_of_readError (args : List (String × ListFileState))
    (h : ∃ f ∈ args, f.2 = ListFileState.readError) :
    readListFiles args = Except.error RunExit.ioError := by
  induction args with
  | nil => simp at h
  | cons hd rest ih =>
    obtain ⟨n, st⟩ := hd
    cases st with
    | readError => rfl
    | absent =>
      apply ih
      obtain ⟨g, hg, hge⟩ := h
      rcases List.mem_cons.mp hg with rfl | hmem
      · cases hge
      · exact ⟨g, hmem, hge⟩
    | readable lines =>
      have hrest : ∃ f ∈ rest, f.2 = ListFileState.readError := by
        obtain ⟨g, hg, hge⟩ := h
        rcases List.mem_cons.mp hg with rfl | hmem
        · cases hge
        · exact ⟨g, hmem, hge⟩
      show (match readListFiles rest with
        | Except.ok arts => Except.ok (depListToArtifactList lines ++ arts)
        | Except.error e => Except.error e) = Except.error RunExit.ioError
      rw [ih hrest]

theorem readListFiles_ok_of_no_readError (args : List (String × ListFileState))
    (h : ∀ f ∈ args, f.2 ≠ ListFileState.readError) :
    ∃ arts, readListFiles args = Except.ok arts := by
  induction args with
  | nil => exact ⟨[], rfl⟩
  | cons f rest ih =>
    obtain ⟨arts, harts⟩ := ih (fun g hg => h g (List.mem_cons_of_mem f hg))
    obtain ⟨n, st⟩ := f
    cases st with
    | absent => exact ⟨arts, harts⟩
    | readable lines =>
      refine ⟨depListToArtifactList lines ++ arts, ?_⟩
      show (match readListFiles rest with
        | Except.ok arts => Except.ok (depListToArtifactList lines ++ arts)
        | Except.error e => Except.error e) = _
      rw [harts]
    | readError => exact absurd rfl (h (n, ListFileState.readError) (List.mem_cons_self _ _))

/-- Counterexample to claim C7 as stated: a list file that raises `IOError`
while being read makes the run terminate through `sys.exit()` — a fatal
termination that is not the usage error. -/
theorem fatal_exit_counterexample :
    ¬ onlyUsageFatalProp (fun _ => "") (fun _ => "") [] := by
  intro h
  have := h none [("f", ListFileState.readError)] "http://h/r" "o" [] [] RunExit.ioError rfl
  exact absurd this.1 (by decide)

/-- Claim C7 (amended): a repository-builder run terminates fatally in
exactly two cases — the usage error (non-zero exit) when no config and no
positional list file is given, and the bare `sys.exit()` (status 0) when
reading one of the given list files raises `IOError`.  Missing list files
are only skipped, and the fetch and checksum phases (total functions of the
model) never terminate the run. -/
theorem fatal_exit_characterization (md5f sha1f : String → String) (remote : FS)
    (config : Option (List (String × List MavenArtifact)))
    (args : List (String × ListFileState)) (url outputDir : String)
    (classifiers : List String) (fs : FS) (e : RunExit) :
    repoBuilderMain md5f sha1f remote config args url outputDir classifiers fs =
        Except.error e ↔
      config = none ∧
        ((args = [] ∧ e = RunExit.usage) ∨
          (args ≠ [] ∧ e = RunExit.ioError ∧
            ∃ f ∈ args, f.2 = ListFileState.readError)) := by
  cases config with
  | some artifactList => simp [repoBuilderMain]
  | none =>
    unfold repoBuilderMain
    by_cases ha : args = []
    · subst ha
      simp
      exact eq_comm
    · have hlen : ¬ args.length < 1 := by
        cases args with
        | nil => exact absurd rfl ha
        | cons f rest => simp
      rw [if_neg hlen]
      by_cases hex : ∃ f ∈ args, f.2 = ListFileState.readError
      · rw [readListFiles_error_of_readError args hex]
        simp [ha, hex]
        exact eq_comm
      · push_neg at hex
        obtain ⟨arts, harts⟩ := readListFiles_ok_of_no_readError args hex
        rw [harts]
        constructor
        · intro hcontra
          simp at hcontra
        · rintro ⟨-, (⟨h1, -⟩ | ⟨-, -, g, hg, hge⟩)⟩
          · exact absurd h1 ha
          · exact absurd hge (hex g hg)

/-! ## Lemmas: checksum generation -/

theorem lookupFS_cons_persist (fs : FS) (k v q c : String)
    (hk : lookupFS fs k = none) (h : lookupFS fs q = some c) :
    lookupFS ((k, v) :: fs) q = some c := by
  unfold lookupFS
  by_cases hq : q = k
  · subst hq
    rw [h] at hk
    cases hk
  · simp [hq, h]

theorem lookupFS_mem_keys (fs : FS) (p c : String) (h : lookupFS fs p = some c) :
    p ∈ fs.map Prod.fst := by
  induction fs with
  | nil => cases h
  | cons kv rest ih =>
    obtain ⟨k, v⟩ := kv
    unfold lookupFS at h
    by_cases hp : p = k
    · subst hp
      simp
    · rw [if_neg hp] at h
      simp [ih h]

theorem genChecksumFiles_persist (md5f sha1f : String → String) (p : String) (fs : FS)
    (q c : String) (h : lookupFS fs q = some c) :
    lookupFS (generateChecksumFiles md5f sha1f p fs) q = some c := by
  unfold generateChecksumFiles
  by_cases hs : isSidecarPath p
  · simp [hs, h]
  · rw [if_neg hs]
    cases hc : lookupFS fs p with
    | none => exact h
    | some content =>
      by_cases h1 : (lookupFS fs (p ++ ".md5")).isSome
      · simp only [h1, if_true]
        by_cases h2 : (lookupFS fs (p ++ ".sha1")).isSome
        · simp [h2, h]
        · simp only [h2, if_false, Bool.false_eq_true]
          refine lookupFS_cons_persist _ _ _ _ _ ?_ h
          cases he : lookupFS fs (p ++ ".sha1") with
          | none => rfl
          | some x => rw [he] at h2; simp at h2
      · simp only [h1, if_false, Bool.false_eq_true]
        have hm : lookupFS fs (p ++ ".md5") = none := by
          cases he : lookupFS fs (p ++ ".md5") with
          | none => rfl
          | some x => rw [he] at h1; simp at h1
        have hq1 : lookupFS ((p ++ ".md5", md5f content ++ "\n") :: fs) q = some c :=
          lookupFS_cons_persist _ _ _ _ _ hm h
        by_cases h2 : (lookupFS ((p ++ ".md5", md5f content ++ "\n") :: fs) (p ++ ".sha1")).isSome
        · simp [h2, hq1]
        · simp only [h2, if_false, Bool.false_eq_true]
          refine lookupFS_cons_persist _ _ _ _ _ ?_ hq1
          cases he : lookupFS ((p ++ ".md5", md5f content ++ "\n") :: fs) (p ++ ".sha1") with
          | none => rfl
          | some x => rw [he] at h2; simp at h2

theorem runChecksumFold_persist (md5f sha1f : String → String) (paths : List String)
    (fs : FS) (q c : String) (h : lookupFS fs q = some c) :
    lookupFS (runChecksumFold md5f sha1f paths fs) q = some c := by
  induction paths generalizing fs with
  | nil => exact h
  | cons p rest ih => exact ih _ (genChecksumFiles_persist _ _ _ _ _ _ h)

theorem genChecksumFiles_none_other (md5f sha1f : String → String) (p : String)
    (fs : FS) (x : String) (hx : lookupFS fs x = none)
    (h1 : x ≠ p ++ ".md5") (h2 : x ≠ p ++ ".sha1") :
    lookupFS (generateChecksumFiles md5f sha1f p fs) x = none := by
  unfold generateChecksumFiles
  by_cases hs : isSidecarPath p
  · simp [hs, hx]
  · rw [if_neg hs]
    cases hc : lookupFS fs p with
    | none => exact hx
    | some content =>
      have step1 : ∀ (g : FS) (v : String), lookupFS g x = none →
          lookupFS ((p ++ ".md5", v) :: g) x = none := by
        intro g v hg
        unfold lookupFS
        rw [if_neg h1]
        exact hg
      have step2 : ∀ (g : FS) (v : String), lookupFS g x = none →
          lookupFS ((p ++ ".sha1", v) :: g) x = none := by
        intro g v hg
        unfold lookupFS
        rw [if_neg h2]
        exact hg
      by_cases hm : (lookupFS fs (p ++ ".md5")).isSome
      · simp only [hm, if_true]
        by_cases hsh : (lookupFS fs (p ++ ".sha1")).isSome
        · simp [hsh, hx]
        · simp only [hsh, if_false, Bool.false_eq_true]
          exact step2 _ _ hx
      · simp only [hm, if_false, Bool.false_eq_true]
        have hx1 := step1 fs (md5f content ++ "\n") hx
        by_cases hsh : (lookupFS ((p ++ ".md5", md5f content ++ "\n") :: fs) (p ++ ".sha1")).isSome
        · simp [hsh, hx1]
        · simp only [hsh, if_false, Bool.false_eq_true]
          exact step2 _ _ hx1

theorem strAppend_right_cancel (q p s : String) (h : q ++ s = p ++ s) : q = p := by
  rw [String.ext_iff] at h ⊢
  rw [String.data_append, String.data_append] at h
  exact List.append_cancel_right h

theorem md5_suffix_ne_sha1_suffix (q p : String) : q ++ ".md5" ≠ p ++ ".sha1" := by
  intro h
  rw [String.ext_iff, String.data_append, String.data_append] at h
  have h5 : (".md5" : String).data.reverse = ['5', 'd', 'm', '.'] := rfl
  have h1 : (".sha1" : String).data.reverse = ['1', 'a', 'h', 's', '.'] := rfl
  have hrev := congrArg List.reverse h
  rw [List.reverse_append, List.reverse_append, h5, h1] at hrev
  have hhead := congrArg List.head? hrev
  simp at hhead

theorem md5_key_cancel (q p : String) (h : q ++ ".md5" = p ++ ".md5") : q = p :=
  strAppend_right_cancel q p ".md5" h

theorem sha1_key_cancel (q p : String) (h : q ++ ".sha1" = p ++ ".sha1") : q = p :=
  strAppend_right_cancel q p ".sha1" h

theorem md5_ne_sha1_same (p : String) : p ++ ".md5" ≠ p ++ ".sha1" :=
  md5_suffix_ne_sha1_suffix p p

theorem genChecksumFiles_self (md5f sha1f : String → String) (p : String) (fs : FS)
    (c : String) (hcontent : lookupFS fs p = some c) (hns : ¬ isSidecarPath p) :
    (∃ w, lookupFS (generateChecksumFiles md5f sha1f p fs) (p ++ ".md5") = some w ∧
      (lookupFS fs (p ++ ".md5") = none → w = md5f c ++ "\n")) ∧
    (∃ w, lookupFS (generateChecksumFiles md5f sha1f p fs) (p ++ ".sha1") = some w ∧
      (lookupFS fs (p ++ ".sha1") = none → w = sha1f c ++ "\n")) := by
  unfold generateChecksumFiles
  rw [if_neg hns, hcontent]
  by_cases hm5 : (lookupFS fs (p ++ ".md5")).isSome
  · obtain ⟨w, hw⟩ := Option.isSome_iff_exists.mp hm5
    simp only [hm5, if_true]
    by_cases hs1 : (lookupFS fs (p ++ ".sha1")).isSome
    · obtain ⟨w', hw'⟩ := Option.isSome_iff_exists.mp hs1
      simp only [hs1, if_true]
      exact ⟨⟨w, hw, fun hn => by rw [hn] at hw; cases hw⟩,
        ⟨w', hw', fun hn => by rw [hn] at hw'; cases hw'⟩⟩
    · simp only [hs1, if_false, Bool.false_eq_true]
      refine ⟨⟨w, ?_, fun hn => by rw [hn] at hw; cases hw⟩,
        ⟨sha1f c ++ "\n", ?_, fun _ => rfl⟩⟩
      · show lookupFS ((p ++ ".sha1", sha1f c ++ "\n") :: fs) (p ++ ".md5") = some w
        unfold lookupFS
        rw [if_neg (md5_ne_sha1_same p)]
        exact hw
      · show lookupFS ((p ++ ".sha1", sha1f c ++ "\n") :: fs) (p ++ ".sha1") = _
        unfold lookupFS
        rw [if_pos rfl]
  · have hm5n : lookupFS fs (p ++ ".md5") = none := by
      cases he : lookupFS fs (p ++ ".md5") with
      | none => rfl
      | some x => rw [he] at hm5; simp at hm5
    simp only [hm5, if_false, Bool.false_eq_true]
    have hfs1md5 : lookupFS ((p ++ ".md5", md5f c ++ "\n") :: fs) (p ++ ".md5") =
        some (md5f c ++ "\n") := by
      unfold lookupFS
      rw [if_pos rfl]
    have hfs1sha : lookupFS ((p ++ ".md5", md5f c ++ "\n") :: fs) (p ++ ".sha1") =
        lookupFS fs (p ++ ".sha1") := by
      show (if p ++ ".sha1" = p ++ ".md5" then some (md5f c ++ "\n")
        else lookupFS fs (p ++ ".sha1")) = lookupFS fs (p ++ ".sha1")
      rw [if_neg (Ne.symm (md5_ne_sha1_same p))]
    by_cases hs1 : (lookupFS ((p ++ ".md5", md5f c ++ "\n") :: fs) (p ++ ".sha1")).isSome
    · obtain ⟨w', hw'⟩ := Option.isSome_iff_exists.mp hs1
      simp only [hs1, if_true]
      refine ⟨⟨md5f c ++ "\n", hfs1md5, fun _ => rfl⟩, ⟨w', hw', fun hn => ?_⟩⟩
      rw [hfs1sha, hn] at hw'
      cases hw'
    · simp only [hs1, if_false, Bool.false_eq_true]
      refine ⟨⟨md5f c ++ "\n", ?_, fun _ => rfl⟩, ⟨sha1f c ++ "\n", ?_, fun _ => rfl⟩⟩
      · show lookupFS ((p ++ ".sha1", sha1f c ++ "\n") :: (p ++ ".md5", md5f c ++ "\n") :: fs)
          (p ++ ".md5") = _
        unfold lookupFS
        rw [if_neg (md5_ne_sha1_same p)]
        exact hfs1md5
      · show lookupFS ((p ++ ".sha1", sha1f c ++ "\n") :: (p ++ ".md5", md5f c ++ "\n") :: fs)
          (p ++ ".sha1") = _
        unfold lookupFS
        rw [if_pos rfl]

theorem runChecksumFold_creates (md5f sha1f : String → String) (paths : List String)
    (fs : FS) (p c : String) (hp : p ∈ paths) (hcontent : lookupFS fs p = some c)
    (hns : ¬ isSidecarPath p) :
    (lookupFS (runChecksumFold md5f sha1f paths fs) (p ++ ".md5")).isSome = true ∧
    (lookupFS (runChecksumFold md5f sha1f paths fs) (p ++ ".sha1")).isSome = true ∧
    (lookupFS fs (p ++ ".md5") = none →
      lookupFS (runChecksumFold md5f sha1f paths fs) (p ++ ".md5") = some (md5f c ++ "\n")) ∧
    (lookupFS fs (p ++ ".sha1") = none →
      lookupFS (runChecksumFold md5f sha1f paths fs) (p ++ ".sha1") =
        some (sha1f c ++ "\n")) := by
  induction paths generalizing fs with
  | nil => simp at hp
  | cons q rest ih =>
    by_cases hq : q = p
    · subst hq
      obtain ⟨⟨w5, hw5, hw5v⟩, ⟨w1, hw1, hw1v⟩⟩ :=
        genChecksumFiles_self md5f sha1f q fs c hcontent hns
      have h5 := runChecksumFold_persist md5f sha1f rest _ _ _ hw5
      have h1 := runChecksumFold_persist md5f sha1f rest _ _ _ hw1
      refine ⟨?_, ?_, ?_, ?_⟩
      · show (lookupFS (runChecksumFold md5f sha1f rest (generateChecksumFiles md5f sha1f q fs))
          (q ++ ".md5")).isSome = true
        rw [h5]
        rfl
      · show (lookupFS (runChecksumFold md5f sha1f rest (generateChecksumFiles md5f sha1f q fs))
          (q ++ ".sha1")).isSome = true
        rw [h1]
        rfl
      · intro hn
        show lookupFS (runChecksumFold md5f sha1f rest (generateChecksumFiles md5f sha1f q fs))
          (q ++ ".md5") = _
        rw [h5, hw5v hn]
      · intro hn
        show lookupFS (runChecksumFold md5f sha1f rest (generateChecksumFiles md5f sha1f q fs))
          (q ++ ".sha1") = _
        rw [h1, hw1v hn]
    · have hp' : p ∈ rest := by
        rcases List.mem_cons.mp hp with h | h
        · exact absurd h.symm hq
        · exact h
      have hcontent' := genChecksumFiles_persist md5f sha1f q fs p c hcontent
      have ihres := ih (generateChecksumFiles md5f sha1f q fs) hp' hcontent'
      refine ⟨ihres.1, ihres.2.1, ?_, ?_⟩
      · intro hn
        refine ihres.2.2.1 ?_
        refine genChecksumFiles_none_other md5f sha1f q fs _ hn ?_ ?_
        · intro he
          exact hq (md5_key_cancel p q he).symm
        · exact md5_suffix_ne_sha1_suffix p q
      · intro hn
        refine ihres.2.2.2 ?_
        refine genChecksumFiles_none_other md5f sha1f q fs _ hn ?_ ?_
        · exact Ne.symm (md5_suffix_ne_sha1_suffix q p)
        · intro he
          exact hq (sha1_key_cancel p q he).symm

/-! ## Claim theorems: checksum generation -/

/-- Counterexample to claim C3 as stated: starting from a tree where
`a.jar` already has a (deliberately wrong) `a.jar.md5` sidecar, the run
leaves the wrong sidecar untouched, so `a.jar` does not end up with an
`.md5` sidecar holding the digest of its content — the two requirements of
the claim cannot both hold for every starting tree. -/
theorem checksum_claim_counterexample :
    ¬ checksumClaimProp (fun _ => "0") (fun _ => "1")
      [("a.jar", "X"), ("a.jar.md5", "wrong")] := by
  intro h
  have h1 := (h.1 "a.jar" "X" rfl (by decide)).1
  exact absurd h1 (by decide)

/-- Claim C3 (amended): after `generateChecksums` runs, nothing that
existed before — in particular any pre-existing sidecar, even with wrong
content — is changed, every regular non-sidecar file has both an `.md5`
and a `.sha1` sidecar, and every sidecar that did not exist before the run
holds exactly the digest of its file followed by a newline.  This holds
for every starting tree. -/
theorem checksum_generation (md5f sha1f : String → String) (fs r : FS)
    (hr : r = generateChecksums md5f sha1f fs) :
    (∀ q v, lookupFS fs q = some v → lookupFS r q = some v) ∧
    (∀ p c, lookupFS fs p = some c → ¬ isSidecarPath p →
      (lookupFS r (p ++ ".md5")).isSome = true ∧
      (lookupFS r (p ++ ".sha1")).isSome = true ∧
      (lookupFS fs (p ++ ".md5") = none →
        lookupFS r (p ++ ".md5") = some (md5f c ++ "\n")) ∧
      (lookupFS fs (p ++ ".sha1") = none →
        lookupFS r (p ++ ".sha1") = some (sha1f c ++ "\n"))) := by
  subst hr
  constructor
  · intro q v h
    exact runChecksumFold_persist md5f sha1f (fs.map Prod.fst) fs q v h
  · intro p c hcontent hns
    exact runChecksumFold_creates md5f sha1f (fs.map Prod.fst) fs p c
      (lookupFS_mem_keys fs p c hcontent) hcontent hns

/-- Witness for `checksum_generation` at a concrete tree with one wrong
pre-existing sidecar: the wrong sidecar survives and the missing `.sha1`
sidecar is created with the digest content. -/
theorem checksum_generation_witness :
    lookupFS (generateChecksums (fun _ => "0") (fun _ => "1")
      [("a.jar", "X"), ("a.jar.md5", "wrong")]) "a.jar.md5" = some "wrong" ∧
    lookupFS (generateChecksums (fun _ => "0") (fun _ => "1")
      [("a.jar", "X"), ("a.jar.md5", "wrong")]) "a.jar.sha1" = some ("1" ++ "\n") := by
  have h := checksum_generation (fun _ => "0") (fun _ => "1")
    [("a.jar", "X"), ("a.jar.md5", "wrong")] _ rfl
  constructor
  · exact h.1 "a.jar.md5" "wrong" (by decide)
  · have h2 := (h.2 "a.jar" "X" (by decide) (by decide)).2.2.2 (by decide)
    exact h2

/-! ## Lemmas: the flattening loop as grouped flat pairs -/

theorem foldl_flatMap_eq {α β γ : Type} (l : List α) (f : α → List β) (g : γ → β → γ)
    (i : γ) :
    (l.flatMap f).foldl g i = l.foldl (fun acc x => (f x).foldl g acc) i := by
  induction l generalizing i with
  | nil => rfl
  | cons x xs ih => rw [List.flatMap_cons, List.foldl_append, List.foldl_cons, ih]

theorem foldl_filterMap_eq {α β γ : Type} (l : List α) (f : α → Option β) (g : γ → β → γ)
    (i : γ) :
    (l.filterMap f).foldl g i =
      l.foldl (fun acc x =>
        match f x with
        | some b => g acc b
        | none => acc) i := by
  induction l generalizing i with
  | nil => rfl
  | cons x xs ih =>
    rw [List.filterMap_cons]
    cases hfx : f x with
    | none => rw [List.foldl_cons, hfx, ih]
    | some b => rw [List.foldl_cons, List.foldl_cons, hfx, ih]

theorem foldl_fcongr {α β : Type} (l : List α) (f g : β → α → β) (i : β) (h : f = g) :
    l.foldl f i = l.foldl g i := by
  rw [h]

theorem flattenArtifactList_eq_group (ac : Bool) (L : ArtifactList) :
    flattenArtifactList ac L = groupPairs (flatPairs ac L) := by
  unfold flattenArtifactList flatPairs groupPairs
  rw [foldl_flatMap_eq]
  apply foldl_fcongr
  funext m gpl
  rw [foldl_flatMap_eq]
  apply foldl_fcongr
  funext m pvl
  rw [foldl_flatMap_eq]
  apply foldl_fcongr
  funext m vs
  rw [foldl_filterMap_eq]
  apply foldl_fcongr
  funext m c
  by_cases hc : c = "" ∨ ac = true
  · rw [if_pos hc, if_pos hc]
    cases MavenArtifact.createFromGAV
      (gpl.1 ++ (if c ≠ "" then ":" ++ c else "") ++ ":" ++ vs.1) <;> rfl
  · rw [if_neg hc, if_neg hc]

theorem mem_appendToUrlMap (m : List (String × List MavenArtifact)) (u : String)
    (b : MavenArtifact) (url : String) (a : MavenArtifact) :
    memUrlMap (appendToUrlMap m u b) url a ↔
      memUrlMap m url a ∨ (url = u ∧ a = b) := by
  induction m with
  | nil =>
    simp only [appendToUrlMap, memUrlMap, List.mem_singleton, Prod.mk.injEq,
      List.not_mem_nil, false_and, exists_const, false_or]
    constructor
    · rintro ⟨l, ⟨h1, h2⟩, h3⟩
      subst h2
      exact ⟨h1, List.mem_singleton.mp h3⟩
    · rintro ⟨h1, h2⟩
      exact ⟨[b], ⟨h1, rfl⟩, List.mem_singleton.mpr h2⟩
  | cons e rest ih =>
    obtain ⟨w, l0⟩ := e
    have hstep : appendToUrlMap ((w, l0) :: rest) u b =
        if w = u then (w, l0 ++ [b]) :: rest
        else (w, l0) :: appendToUrlMap rest u b := rfl
    rw [hstep]
    by_cases hu : w = u
    · rw [if_pos hu]
      subst hu
      simp only [memUrlMap, List.mem_cons, Prod.mk.injEq]
      constructor
      · rintro ⟨l, (⟨he1, he2⟩ | hmem), hal⟩
        · subst he1
          subst he2
          rcases List.mem_append.mp hal with h | h
          · exact Or.inl ⟨l0, Or.inl ⟨rfl, rfl⟩, h⟩
          · exact Or.inr ⟨rfl, List.mem_singleton.mp h⟩
        · exact Or.inl ⟨l, Or.inr hmem, hal⟩
      · rintro (⟨l, (⟨he1, he2⟩ | hmem), hal⟩ | ⟨he, hab⟩)
        · subst he1
          subst he2
          exact ⟨l ++ [b], Or.inl ⟨rfl, rfl⟩, List.mem_append.mpr (Or.inl hal)⟩
        · exact ⟨l, Or.inr hmem, hal⟩
        · subst he
          subst hab
          exact ⟨l0 ++ [a], Or.inl ⟨rfl, rfl⟩,
            List.mem_append.mpr (Or.inr (List.mem_singleton.mpr rfl))⟩
    · rw [if_neg hu]
      simp only [memUrlMap, List.mem_cons, Prod.mk.injEq] at ih ⊢
      constructor
      · rintro ⟨l, (⟨he1, he2⟩ | hmem), hal⟩
        · subst he1
          subst he2
          exact Or.inl ⟨l, Or.inl ⟨rfl, rfl⟩, hal⟩
        · rcases (ih).mp ⟨l, hmem, hal⟩ with h | h
          · obtain ⟨l2, h2, h3⟩ := h
            exact Or.inl ⟨l2, Or.inr h2, h3⟩
          · exact Or.inr h
      · rintro (⟨l, (⟨he1, he2⟩ | hmem), hal⟩ | ⟨he, hab⟩)
        · subst he1
          subst he2
          exact ⟨l, Or.inl ⟨rfl, rfl⟩, hal⟩
        · obtain ⟨l2, h2, h3⟩ := (ih).mpr (Or.inl ⟨l, hmem, hal⟩)
          exact ⟨l2, Or.inr h2, h3⟩
        · obtain ⟨l2, h2, h3⟩ := (ih).mpr (Or.inr ⟨he, hab⟩)
          exact ⟨l2, Or.inr h2, h3⟩

theorem mem_groupPairs_aux (ps : List (String × MavenArtifact))
    (m : List (String × List MavenArtifact)) (url : String) (a : MavenArtifact) :
    memUrlMap (ps.foldl (fun m p => appendToUrlMap m p.1 p.2) m) url a ↔
      memUrlMap m url a ∨ (url, a) ∈ ps := by
  induction ps generalizing m with
  | nil => simp
  | cons p ps ih =>
    rw [List.foldl_cons, ih, mem_appendToUrlMap]
    simp only [List.mem_cons, Prod.ext_iff]
    tauto

theorem mem_groupPairs (ps : List (String × MavenArtifact)) (url : String)
    (a : MavenArtifact) :
    memUrlMap (groupPairs ps) url a ↔ (url, a) ∈ ps := by
  unfold groupPairs
  rw [mem_groupPairs_aux]
  simp [memUrlMap]

theorem mem_flatPairs (ac : Bool) (L : ArtifactList) (url : String) (art : MavenArtifact) :
    (url, art) ∈ flatPairs ac L ↔
      ∃ gat pl p vl v s c, (gat, pl) ∈ L ∧ (p, vl) ∈ pl ∧ (v, s) ∈ vl ∧
        c ∈ s.classifiers ∧ (c = "" ∨ ac = true) ∧
        MavenArtifact.createFromGAV
          (gat ++ (if c ≠ "" then ":" ++ c else "") ++ ":" ++ v) = some art ∧
        url = s.url := by
  unfold flatPairs
  simp only [List.mem_flatMap, List.mem_filterMap]
  constructor
  · rintro ⟨gpl, hgpl, pvl, hpvl, vs, hvs, c, hc, hfc⟩
    by_cases hguard : c = "" ∨ ac = true
    · rw [if_pos hguard] at hfc
      cases hcr : MavenArtifact.createFromGAV
          (gpl.1 ++ (if c ≠ "" then ":" ++ c else "") ++ ":" ++ vs.1) with
      | none => rw [hcr] at hfc; cases hfc
      | some a0 =>
        rw [hcr] at hfc
        have hue : url = vs.2.url ∧ art = a0 := by
          have := Option.some.inj hfc
          exact ⟨(Prod.ext_iff.mp this.symm).1, (Prod.ext_iff.mp this.symm).2⟩
        refine ⟨gpl.1, gpl.2, pvl.1, pvl.2, vs.1, vs.2, c, hgpl, hpvl, hvs, hc, hguard,
          ?_, hue.1⟩
        rw [hcr, hue.2]
    · rw [if_neg hguard] at hfc
      cases hfc
  · rintro ⟨gat, pl, p, vl, v, s, c, hgat, hpl, hvl, hc, hguard, hcr, hurl⟩
    refine ⟨(gat, pl), hgat, (p, vl), hpl, (v, s), hvl, c, hc, ?_⟩
    rw [if_pos hguard, hcr, hurl]

/-! ## Lemmas: `splitCols` and `createFromGAV` -/

theorem splitCols_append_colon (xs ys : List Char) (h : ':' ∉ xs) :
    splitCols (xs ++ ':' :: ys) = xs :: splitCols ys := by
  induction xs with
  | nil => simp [splitCols]
  | cons c cs ih =>
    have hc : ¬ c = ':' := fun he => h (by rw [he]; exact List.mem_cons_self ':' cs)
    have h' : ':' ∉ cs := fun hm => h (List.mem_cons_of_mem c hm)
    rw [List.cons_append]
    show (if c = ':' then [] :: splitCols (cs ++ ':' :: ys) else
        match splitCols (cs ++ ':' :: ys) with
        | [] => [[c]]
        | f :: rest => (c :: f) :: rest) = (c :: cs) :: splitCols ys
    rw [if_neg hc, ih h']

theorem splitCols_no_colon (xs : List Char) (h : ':' ∉ xs) : splitCols xs = [xs] := by
  induction xs with
  | nil => rfl
  | cons c cs ih =>
    have hc : ¬ c = ':' := fun he => h (by rw [he]; exact List.mem_cons_self ':' cs)
    have h' : ':' ∉ cs := fun hm => h (List.mem_cons_of_mem c hm)
    unfold splitCols
    rw [if_neg hc, ih h']

theorem splitCols_parts_no_colon (cs : List Char) :
    ∀ part ∈ splitCols cs, ':' ∉ part := by
  induction cs with
  | nil =>
    intro part hp
    simp only [splitCols, List.mem_singleton] at hp
    subst hp
    simp
  | cons c rest ih =>
    intro part hp
    unfold splitCols at hp
    by_cases hc : c = ':'
    · rw [if_pos hc] at hp
      rcases List.mem_cons.mp hp with h | h
      · subst h; simp
      · exact ih part h
    · rw [if_neg hc] at hp
      cases hrest : splitCols rest with
      | nil =>
        rw [hrest] at hp
        simp only [List.mem_singleton] at hp
        subst hp
        intro hmem
        rcases List.mem_cons.mp hmem with h | h
        · exact hc h.symm
        · simp at h
      | cons f fs =>
        rw [hrest] at hp
        rcases List.mem_cons.mp hp with h | h
        · subst h
          intro hmem
          rcases List.mem_cons.mp hmem with h | h
          · exact hc h.symm
          · exact ih f (by rw [hrest]; exact List.mem_cons_self f fs) h
        · exact ih part (by rw [hrest]; exact List.mem_cons_of_mem f h)

theorem splitCols_ne_nil (cs : List Char) : splitCols cs ≠ [] := by
  cases cs with
  | nil => simp [splitCols]
  | cons c rest =>
    unfold splitCols
    by_cases hc : c = ':'
    · rw [if_pos hc]; simp
    · rw [if_neg hc]
      cases splitCols rest <;> simp

theorem joinCols_splitCols (cs : List Char) : joinCols (splitCols cs) = cs := by
  induction cs with
  | nil => rfl
  | cons c rest ih =>
    unfold splitCols
    by_cases hc : c = ':'
    · rw [if_pos hc]
      subst hc
      cases hrest : splitCols rest with
      | nil => exact absurd hrest (splitCols_ne_nil rest)
      | cons f fs =>
        show joinCols ([] :: f :: fs) = ':' :: rest
        unfold joinCols
        rw [show joinCols (f :: fs) = rest from by rw [← hrest]; exact ih]
        rfl
    · rw [if_neg hc]
      cases hrest : splitCols rest with
      | nil => exact absurd hrest (splitCols_ne_nil rest)
      | cons f fs =>
        cases fs with
        | nil =>
          show joinCols [c :: f] = c :: rest
          unfold joinCols
          have : joinCols [f] = rest := by rw [← hrest]; exact ih
          unfold joinCols at this
          rw [this]
        | cons f2 fs2 =>
          show joinCols ((c :: f) :: f2 :: fs2) = c :: rest
          unfold joinCols
          have : joinCols (f :: f2 :: fs2) = rest := by rw [← hrest]; exact ih
          unfold joinCols at this
          rw [List.cons_append, this]

theorem createFromGAV_flatten (g a t c v : String) (hg : noColon g) (ha : noColon a)
    (ht : noColon t) (hc : noColon c) (hv : noColon v) :
    MavenArtifact.createFromGAV
      ((g ++ ":" ++ a ++ ":" ++ t) ++ (if c ≠ "" then ":" ++ c else "") ++ ":" ++ v) =
      some ⟨g, a, t, c, v⟩ := by
  have hcolon : (":" : String).data = [':'] := rfl
  have hempty : ("" : String).data = [] := rfl
  by_cases hce : c = ""
  · subst hce
    rw [if_neg (by simp)]
    have hdata : ((g ++ ":" ++ a ++ ":" ++ t) ++ "" ++ ":" ++ v).data =
        g.data ++ ':' :: (a.data ++ ':' :: (t.data ++ ':' :: v.data)) := by
      simp [String.data_append, hcolon, hempty]
    unfold MavenArtifact.createFromGAV
    rw [hdata, splitCols_append_colon _ _ hg, splitCols_append_colon _ _ ha,
      splitCols_append_colon _ _ ht, splitCols_no_colon _ hv]
  · rw [if_pos hce]
    have hdata : ((g ++ ":" ++ a ++ ":" ++ t) ++ (":" ++ c) ++ ":" ++ v).data =
        g.data ++ ':' :: (a.data ++ ':' :: (t.data ++ ':' :: (c.data ++ ':' :: v.data))) := by
      simp [String.data_append, hcolon]
    unfold MavenArtifact.createFromGAV
    rw [hdata, splitCols_append_colon _ _ hg, splitCols_append_colon _ _ ha,
      splitCols_append_colon _ _ ht, splitCols_append_colon _ _ hc,
      splitCols_no_colon _ hv]

theorem createFromGAV_gatOk (gat c v : String) (hg : gatOk gat) (hc : noColon c)
    (hv : noColon v) :
    ∃ x y z : List Char, ':' ∉ x ∧ ':' ∉ y ∧ ':' ∉ z ∧
      gat.data = x ++ ':' :: (y ++ ':' :: z) ∧
      MavenArtifact.createFromGAV
        (gat ++ (if c ≠ "" then ":" ++ c else "") ++ ":" ++ v) =
        some ⟨⟨x⟩, ⟨y⟩, ⟨z⟩, c, v⟩ := by
  unfold gatOk at hg
  obtain ⟨x, y, z, hxyz⟩ := List.length_eq_three.mp hg
  have hnc := splitCols_parts_no_colon gat.data
  have hx : ':' ∉ x := hnc x (by rw [hxyz]; simp)
  have hy : ':' ∉ y := hnc y (by rw [hxyz]; simp)
  have hz : ':' ∉ z := hnc z (by rw [hxyz]; simp)
  have hjoin : gat.data = x ++ ':' :: (y ++ ':' :: z) := by
    have hj := joinCols_splitCols gat.data
    rw [hxyz] at hj
    rw [← hj]
    rfl
  have hgat : gat = ⟨x⟩ ++ ":" ++ ⟨y⟩ ++ ":" ++ ⟨z⟩ := by
    rw [String.ext_iff]
    simp only [String.data_append]
    rw [hjoin]
    have hcolon : (":" : String).data = [':'] := rfl
    simp [hcolon]
  refine ⟨x, y, z, hx, hy, hz, hjoin, ?_⟩
  rw [hgat]
  exact createFromGAV_flatten ⟨x⟩ ⟨y⟩ ⟨z⟩ c v hx hy hz hc hv

theorem keys_nodup_eq {α β : Type} (l : List (α × β))
    (h : (l.map Prod.fst).Nodup) (k : α) (b1 b2 : β)
    (h1 : (k, b1) ∈ l) (h2 : (k, b2) ∈ l) : b1 = b2 := by
  induction l with
  | nil => cases h1
  | cons e rest ih =>
    rw [List.map_cons, List.nodup_cons] at h
    rcases List.mem_cons.mp h1 with he1 | hm1 <;> rcases List.mem_cons.mp h2 with he2 | hm2
    · have hb := he1.trans he2.symm
      exact ((Prod.mk.injEq k b1 k b2).mp hb).2
    · exfalso
      apply h.1
      rw [← he1]
      exact List.mem_map.mpr ⟨(k, b2), hm2, rfl⟩
    · exfalso
      apply h.1
      rw [← he2]
      exact List.mem_map.mpr ⟨(k, b1), hm1, rfl⟩
    · exact ih h.2 hm1 hm2

/-! ## Lemmas: the priority reducer -/

theorem mem_reduceArtifactList (L : ArtifactList) (gat : String) (plR : PriorityList) :
    (gat, plR) ∈ reduceArtifactList L ↔
      ∃ pl, (gat, pl) ∈ L ∧ plR = reducePriorities pl := by
  unfold reduceArtifactList
  rw [List.mem_map]
  constructor
  · rintro ⟨gpl, hmem, heq⟩
    rw [Prod.mk.injEq] at heq
    refine ⟨gpl.2, ?_, heq.2.symm⟩
    rw [← heq.1]
    exact hmem
  · rintro ⟨pl, hmem, heq⟩
    refine ⟨(gat, pl), hmem, ?_⟩
    rw [heq]

theorem mem_reducePriorities (pl : PriorityList) (p : Nat) (vlR : VersionList) :
    (p, vlR) ∈ reducePriorities pl ↔
      ∃ vl, (p, vl) ∈ pl ∧ vlR = vl.filter (fun vs => isWinner pl p vs.1) := by
  unfold reducePriorities
  rw [List.mem_map]
  constructor
  · rintro ⟨pvl, hmem, heq⟩
    rw [Prod.mk.injEq] at heq
    refine ⟨pvl.2, ?_, ?_⟩
    · rw [← heq.1]
      exact hmem
    · rw [← heq.2, heq.1]
  · rintro ⟨vl, hmem, heq⟩
    refine ⟨(p, vl), hmem, ?_⟩
    rw [heq]

theorem mem_winner_filter (pl : PriorityList) (p : Nat) (vl : VersionList) (v : String)
    (s : ArtSpec) :
    (v, s) ∈ vl.filter (fun vs => isWinner pl p vs.1) ↔
      (v, s) ∈ vl ∧ isWinner pl p v = true :=
  List.mem_filter

theorem isWinner_le (pl : PriorityList) (p : Nat) (v : String)
    (h : isWinner pl p v = true) (q : Nat) (vlq : VersionList)
    (hq : (q, vlq) ∈ pl) (hv : ∃ s, (v, s) ∈ vlq) : p ≤ q := by
  unfold isWinner prioritiesContaining at h
  rw [List.all_eq_true] at h
  have hqmem : q ∈ (pl.filter (fun pvl => pvl.2.any (fun vs => vs.1 = v))).map Prod.fst := by
    rw [List.mem_map]
    refine ⟨(q, vlq), ?_, rfl⟩
    rw [List.mem_filter]
    refine ⟨hq, ?_⟩
    rw [List.any_eq_true]
    obtain ⟨s, hs⟩ := hv
    exact ⟨(v, s), hs, by simp⟩
  simpa using h q hqmem

theorem isWinner_of_min (pl : PriorityList) (p : Nat) (v : String)
    (hmin : ∀ q vlq, (q, vlq) ∈ pl → (∃ s, (v, s) ∈ vlq) → p ≤ q) :
    isWinner pl p v = true := by
  unfold isWinner prioritiesContaining
  rw [List.all_eq_true]
  intro q hqmem
  rw [List.mem_map] at hqmem
  obtain ⟨pvl, hmem, hfst⟩ := hqmem
  rw [List.mem_filter] at hmem
  obtain ⟨hpl, hany⟩ := hmem
  rw [List.any_eq_true] at hany
  obtain ⟨vs, hvs, hveq⟩ := hany
  simp only [decide_eq_true_eq] at hveq
  have hle : p ≤ pvl.1 := by
    refine hmin pvl.1 pvl.2 hpl ⟨vs.2, ?_⟩
    rw [← hveq]
    exact hvs
  rw [← hfst]
  simpa using hle

/-! ## Lemmas: flattening a single spec -/

theorem filterMap_all_some {α β : Type} (l : List α) (f : α → Option β) (g : α → β)
    (h : ∀ x ∈ l, f x = some (g x)) : l.filterMap f = l.map g := by
  induction l with
  | nil => rfl
  | cons x xs ih =>
    rw [List.filterMap_cons, h x (List.mem_cons_self x xs), List.map_cons,
      ih (fun y hy => h y (List.mem_cons_of_mem x hy))]

theorem appendToUrlMap_single (url : String) (l : List MavenArtifact)
    (a0 : MavenArtifact) :
    appendToUrlMap [(url, l)] url a0 = [(url, l ++ [a0])] := by
  unfold appendToUrlMap
  rw [if_pos rfl]

theorem groupPairs_single_url (url : String) (l : List MavenArtifact)
    (arts : List MavenArtifact) :
    (arts.map (fun a0 => (url, a0))).foldl (fun m p => appendToUrlMap m p.1 p.2)
      [(url, l)] = [(url, l ++ arts)] := by
  induction arts generalizing l with
  | nil => simp
  | cons a0 as ih =>
    rw [List.map_cons, List.foldl_cons]
    show (as.map (fun a0 => (url, a0))).foldl (fun m p => appendToUrlMap m p.1 p.2)
      (appendToUrlMap [(url, l)] url a0) = _
    rw [appendToUrlMap_single, ih (l ++ [a0])]
    simp

theorem groupPairs_map_single (url : String) (arts : List MavenArtifact)
    (h : arts ≠ []) :
    groupPairs (arts.map (fun a0 => (url, a0))) = [(url, arts)] := by
  cases arts with
  | nil => exact absurd rfl h
  | cons a0 as =>
    unfold groupPairs
    rw [List.map_cons, List.foldl_cons]
    show (as.map (fun a0 => (url, a0))).foldl (fun m p => appendToUrlMap m p.1 p.2)
      (appendToUrlMap [] url a0) = _
    have h0 : appendToUrlMap [] url a0 = [(url, [a0])] := rfl
    rw [h0, groupPairs_single_url]
    rfl

theorem flatten_singleton (ac : Bool) (gat : String) (pr : Nat) (v : String)
    (s : ArtSpec) :
    flattenArtifactList ac [(gat, [(pr, [(v, s)])])] =
      groupPairs (s.classifiers.filterMap (fun c =>
        if c = "" ∨ ac = true then
          match MavenArtifact.createFromGAV
              (gat ++ (if c ≠ "" then ":" ++ c else "") ++ ":" ++ v) with
          | some art => some (s.url, art)
          | none => none
        else none)) := by
  rw [flattenArtifactList_eq_group]
  unfold flatPairs
  simp

/-! ## Claim theorems: classifier expansion -/

/-- Claim C4: an ArtSpec whose classifier set is `{"", "sources",
"javadoc"}` (in any iteration order) flattens, with all-classifiers mode
on, to exactly three Coordinates differing only in the classifier; with
all-classifiers mode off, only the empty-classifier Coordinate is
emitted. -/
theorem classifier_expansion (g a t v : String) (pr : Nat) (s : ArtSpec)
    (hg : noColon g) (ha : noColon a) (ht : noColon t) (hv : noColon v)
    (hcs : s.classifiers.Perm ["", "sources", "javadoc"]) :
    (∃ l, flattenArtifactList true [(g ++ ":" ++ a ++ ":" ++ t, [(pr, [(v, s)])])] =
        [(s.url, l)] ∧ l.length = 3 ∧
        l.Perm [⟨g, a, t, "", v⟩, ⟨g, a, t, "sources", v⟩, ⟨g, a, t, "javadoc", v⟩]) ∧
    flattenArtifactList false [(g ++ ":" ++ a ++ ":" ++ t, [(pr, [(v, s)])])] =
      [(s.url, [⟨g, a, t, "", v⟩])] := by
  have hnc : ∀ c ∈ s.classifiers, noColon c := by
    intro c hcmem
    have hmem2 : c = "" ∨ c = "sources" ∨ c = "javadoc" := by
      have hm := hcs.mem_iff.mp hcmem
      simpa using hm
    rcases hmem2 with h | h | h <;> subst h <;> decide
  constructor
  · have hsome : ∀ c ∈ s.classifiers,
        (if c = "" ∨ (true : Bool) = true then
          match MavenArtifact.createFromGAV
              ((g ++ ":" ++ a ++ ":" ++ t) ++ (if c ≠ "" then ":" ++ c else "") ++ ":" ++ v) with
          | some art => some (s.url, art)
          | none => none
        else none) = some (s.url, (⟨g, a, t, c, v⟩ : MavenArtifact)) := by
      intro c hcmem
      rw [if_pos (Or.inr rfl),
        createFromGAV_flatten g a t c v hg ha ht (hnc c hcmem) hv]
    refine ⟨s.classifiers.map (fun c => (⟨g, a, t, c, v⟩ : MavenArtifact)), ?_, ?_, ?_⟩
    · rw [flatten_singleton, filterMap_all_some _ _
        (fun c => ((s.url, (⟨g, a, t, c, v⟩ : MavenArtifact)) : String × MavenArtifact))
        hsome]
      rw [show (s.classifiers.map
          (fun c => ((s.url, (⟨g, a, t, c, v⟩ : MavenArtifact)) : String × MavenArtifact))) =
          ((s.classifiers.map (fun c => (⟨g, a, t, c, v⟩ : MavenArtifact))).map
            (fun a0 => (s.url, a0))) from by rw [List.map_map]; rfl]
      refine groupPairs_map_single s.url _ ?_
      intro hnil
      have hlen := congrArg List.length hnil
      rw [List.length_map, hcs.length_eq] at hlen
      simp at hlen
    · rw [List.length_map, hcs.length_eq]
      rfl
    · exact hcs.map (fun c => (⟨g, a, t, c, v⟩ : MavenArtifact))
  · rw [flatten_singleton]
    have hfm : s.classifiers.filterMap (fun c =>
        if c = "" ∨ (false : Bool) = true then
          match MavenArtifact.createFromGAV
              ((g ++ ":" ++ a ++ ":" ++ t) ++ (if c ≠ "" then ":" ++ c else "") ++ ":" ++ v) with
          | some art => some (s.url, art)
          | none => none
        else none) = [(s.url, (⟨g, a, t, "", v⟩ : MavenArtifact))] := by
      have hperm := hcs.filterMap (fun c =>
        if c = "" ∨ (false : Bool) = true then
          match MavenArtifact.createFromGAV
              ((g ++ ":" ++ a ++ ":" ++ t) ++ (if c ≠ "" then ":" ++ c else "") ++ ":" ++ v) with
          | some art => some (s.url, art)
          | none => none
        else none)
      have hconc : (["", "sources", "javadoc"] : List String).filterMap (fun c =>
          if c = "" ∨ (false : Bool) = true then
            match MavenArtifact.createFromGAV
                ((g ++ ":" ++ a ++ ":" ++ t) ++ (if c ≠ "" then ":" ++ c else "") ++ ":" ++ v) with
            | some art => some (s.url, art)
            | none => none
          else none) = [(s.url, (⟨g, a, t, "", v⟩ : MavenArtifact))] := by
        rw [List.filterMap_cons, List.filterMap_cons, List.filterMap_cons,
          List.filterMap_nil]
        rw [show (if ("" : String) = "" ∨ (false : Bool) = true then
            match MavenArtifact.createFromGAV
                ((g ++ ":" ++ a ++ ":" ++ t) ++ (if ("" : String) ≠ "" then ":" ++ "" else "") ++ ":" ++ v) with
            | some art => some (s.url, art)
            | none => none
          else none) = some (s.url, (⟨g, a, t, "", v⟩ : MavenArtifact)) from by
          rw [if_pos (Or.inl rfl), createFromGAV_flatten g a t "" v hg ha ht (by decide) hv]]
        rw [if_neg (by simp), if_neg (by simp)]
      rw [hconc] at hperm
      exact List.perm_singleton.mp hperm
    rw [hfm]
    rfl

/-- Witness for `classifier_expansion` at a concrete spec. -/
theorem classifier_expansion_witness :
    flattenArtifactList false [("g:a:t", [(1, [("1.0", ⟨"u", ["", "sources", "javadoc"]⟩)])])] =
      [("u", [⟨"g", "a", "t", "", "1.0"⟩])] := by
  have h := classifier_expansion "g" "a" "t" "1.0" 1 ⟨"u", ["", "sources", "javadoc"]⟩
    (by decide) (by decide) (by decide) (by decide) (by decide)
  exact h.2

/-! ## Claim theorems: the all-classifiers overwrite -/

/-- Claim C9: the config-driven `generateArtifactList` overwrites
`options.allclassifiers` with the comparison `classifiers == '__all__'`
before building and flattening, so the incoming `--allclassifiers` flag has
no effect on this entry point; expansion is enabled exactly when the
classifiers option string is `__all__`, and for any other classifiers
value (e.g. the default `sources`) only empty-classifier Coordinates are
emitted, for every produced index with well-formed GAT keys and colon-free
versions. -/
theorem allclassifiers_overwrite (opts : GenOptions)
    (pipeline : GenOptions → ArtifactList) (b : Bool) :
    generateArtifactList { opts with allclassifiers := b } pipeline =
      generateArtifactList opts pipeline ∧
    generateArtifactList opts pipeline =
      flattenArtifactList (decide (opts.classifiers = "__all__"))
        (pipeline { opts with allclassifiers := decide (opts.classifiers = "__all__") }) ∧
    (opts.classifiers ≠ "__all__" →
      (∀ e ∈ pipeline { opts with allclassifiers := decide (opts.classifiers = "__all__") },
        gatOk e.1 ∧ ∀ pv ∈ e.2, ∀ vs ∈ pv.2, noColon vs.1) →
      ∀ url art, memUrlMap (generateArtifactList opts pipeline) url art →
        art.classifier = "") := by
  refine ⟨rfl, rfl, ?_⟩
  intro hne hWF url art hmem
  unfold generateArtifactList at hmem
  rw [flattenArtifactList_eq_group, mem_groupPairs, mem_flatPairs] at hmem
  obtain ⟨gat, pl, p, vl, v, s, c, hgat, hpl, hvl, hc, hguard, hcr, hurl⟩ := hmem
  have hcempty : c = "" := by
    rcases hguard with h | h
    · exact h
    · exact absurd (of_decide_eq_true h) hne
  subst hcempty
  obtain ⟨hgatOk, hver⟩ := hWF (gat, pl) hgat
  have hvnc : noColon v := hver (p, vl) hpl (v, s) hvl
  obtain ⟨x, y, z, hx, hy, hz, hjoin, hcr2⟩ :=
    createFromGAV_gatOk gat "" v hgatOk (by decide) hvnc
  have heq := Option.some.inj (hcr2.symm.trans hcr)
  rw [← heq]

/-- Witness for the non-`__all__` clause of `allclassifiers_overwrite`. -/
theorem allclassifiers_overwrite_witness :
    (MavenArtifact.mk "g" "a" "t" "" "1.0").classifier = "" := by
  have h := (allclassifiers_overwrite ⟨none, "sources", true⟩
    (fun _ => [("g:a:t", [(1, [("1.0", ⟨"u", [""]⟩)])])]) false).2.2
  refine h (by decide) (by decide) "u" (MavenArtifact.mk "g" "a" "t" "" "1.0") ?_
  show memUrlMap (generateArtifactList ⟨none, "sources", true⟩
    (fun _ => [("g:a:t", [(1, [("1.0", ⟨"u", [""]⟩)])])])) "u" _
  refine ⟨[MavenArtifact.mk "g" "a" "t" "" "1.0"], ?_, ?_⟩ <;> decide

/-! ## Claim theorems: priority tie-break -/

/-- Claim C1: when a (GAT, version) pair is present under priorities `p1 <
p2` with different specs and `p1` is the lowest priority carrying that
version, the resolution pipeline (the spec's Resolver/Reducer followed by
the flattening of `generateArtifactList`) emits for that (GAT, version)
exactly the entries of the `p1` spec: a pair `(url, coordinate)` for that
GAT and version is in the output precisely when `url` is the winning
spec's URL and the coordinate's classifier is one of the winning spec's
classifiers passing the classifier-expansion guard.  The characterization
is stated via membership only, so it is unchanged under any reordering of
the underlying maps. -/
theorem priority_tiebreak (L : ArtifactList) (hWF : indexWF L)
    (g a t v : String) (hg : noColon g) (ha : noColon a) (ht : noColon t)
    (pl : PriorityList) (p1 p2 : Nat) (vl1 vl2 : VersionList) (s1 s2 : ArtSpec)
    (hmemL : (g ++ ":" ++ a ++ ":" ++ t, pl) ∈ L)
    (h1 : (p1, vl1) ∈ pl) (h2 : (p2, vl2) ∈ pl)
    (hv1 : (v, s1) ∈ vl1) (hv2 : (v, s2) ∈ vl2)
    (hlt : p1 < p2) (hne : s1 ≠ s2)
    (hmin : ∀ q vlq, (q, vlq) ∈ pl → (∃ sq, (v, sq) ∈ vlq) → p1 ≤ q)
    (ac : Bool) (url c : String) :
    memUrlMap (resolutionPipeline ac L) url ⟨g, a, t, c, v⟩ ↔
      (url = s1.url ∧ c ∈ s1.classifiers ∧ (c = "" ∨ ac = true)) := by
  have hWFpl := (hWF.2 (g ++ ":" ++ a ++ ":" ++ t, pl) hmemL).2
  have hWFvl1 := hWFpl.2 (p1, vl1) h1
  have hv1WF := hWFvl1.2 (v, s1) hv1
  constructor
  · intro hmem
    unfold resolutionPipeline at hmem
    rw [flattenArtifactList_eq_group, mem_groupPairs, mem_flatPairs] at hmem
    obtain ⟨gat', plR, p', vlR, v', s', c', hgat', hplR, hvlR, hc', hguard, hcr, hurl⟩ :=
      hmem
    obtain ⟨pl', hpl'L, hplRe⟩ := (mem_reduceArtifactList L gat' plR).mp hgat'
    subst hplRe
    obtain ⟨vl', hvl'pl, hvlRe⟩ := (mem_reducePriorities pl' p' vlR).mp hplR
    subst hvlRe
    obtain ⟨hvs'vl, hwin⟩ := (mem_winner_filter pl' p' vl' v' s').mp hvlR
    obtain ⟨hgatOk', hWFpl'⟩ := hWF.2 (gat', pl') hpl'L
    have hWFvl' := hWFpl'.2 (p', vl') hvl'pl
    obtain ⟨hv'nc, hs'WF⟩ := hWFvl'.2 (v', s') hvs'vl
    have hc'nc : noColon c' := hs'WF c' hc'
    obtain ⟨x, y, z, hx, hy, hz, hjoin, hcr2⟩ :=
      createFromGAV_gatOk gat' c' v' hgatOk' hc'nc hv'nc
    have heq := Option.some.inj (hcr2.symm.trans hcr)
    rw [MavenArtifact.mk.injEq] at heq
    obtain ⟨hxg, hya, hzt, hcc, hvv⟩ := heq
    have hgat'eq : gat' = g ++ ":" ++ a ++ ":" ++ t := by
      rw [String.ext_iff]
      rw [hjoin]
      have hxd : x = g.data := congrArg String.data hxg
      have hyd : y = a.data := congrArg String.data hya
      have hzd : z = t.data := congrArg String.data hzt
      rw [hxd, hyd, hzd]
      have hcolon : (":" : String).data = [':'] := rfl
      simp [String.data_append, hcolon]
    rw [hgat'eq] at hpl'L
    have hpl'pl : pl' = pl := keys_nodup_eq L hWF.1 _ pl' pl hpl'L hmemL
    subst hpl'pl
    rw [hvv] at hvs'vl hwin
    have hple1 : p' ≤ p1 := isWinner_le pl' p' v hwin p1 vl1 h1 ⟨s1, hv1⟩
    have hple2 : p1 ≤ p' := hmin p' vl' hvl'pl ⟨s', hvs'vl⟩
    have hpp : p' = p1 := Nat.le_antisymm hple1 hple2
    rw [hpp] at hvl'pl
    have hvl'vl1 : vl' = vl1 := keys_nodup_eq pl' hWFpl.1 p1 vl' vl1 hvl'pl h1
    subst hvl'vl1
    have hs's1 : s' = s1 := keys_nodup_eq vl' hWFvl1.1 v s' s1 hvs'vl hv1
    subst hs's1
    rw [hcc] at hc'
    rw [hcc] at hguard
    exact ⟨hurl, hc', hguard⟩
  · rintro ⟨hurl, hcmem, hguard⟩
    unfold resolutionPipeline
    rw [flattenArtifactList_eq_group, mem_groupPairs, mem_flatPairs]
    refine ⟨g ++ ":" ++ a ++ ":" ++ t, reducePriorities pl, p1,
      vl1.filter (fun vs => isWinner pl p1 vs.1), v, s1, c, ?_, ?_, ?_, hcmem, hguard,
      ?_, hurl⟩
    · exact (mem_reduceArtifactList L _ _).mpr ⟨pl, hmemL, rfl⟩
    · exact (mem_reducePriorities pl _ _).mpr ⟨vl1, h1, rfl⟩
    · exact (mem_winner_filter pl p1 vl1 v s1).mpr ⟨hv1, isWinner_of_min pl p1 v hmin⟩
    · exact createFromGAV_flatten g a t c v hg ha ht (hv1WF.2 c hcmem) hv1WF.1

/-- Witness for `priority_tiebreak` at a concrete two-priority index: the
spec of priority 1 wins over the different spec of priority 2. -/
theorem priority_tiebreak_witness :
    memUrlMap (resolutionPipeline false
      [("g:a:t", [(1, [("1.0", ⟨"u1", [""]⟩)]), (2, [("1.0", ⟨"u2", [""]⟩)])])])
      "u1" ⟨"g", "a", "t", "", "1.0"⟩ := by
  have hmin : ∀ (q : Nat) (vlq : VersionList),
      (q, vlq) ∈ [(1, [("1.0", (⟨"u1", [""]⟩ : ArtSpec))]), (2, [("1.0", ⟨"u2", [""]⟩)])] →
      (∃ sq, ("1.0", sq) ∈ vlq) → 1 ≤ q := by
    intro q vlq hmem hex
    rcases List.mem_cons.mp hmem with he | he
    · injection he with he1 he2
      omega
    · rcases List.mem_cons.mp he with he' | he'
      · injection he' with he1 he2
        omega
      · cases he'
  have h := priority_tiebreak
    [("g:a:t", [(1, [("1.0", ⟨"u1", [""]⟩)]), (2, [("1.0", ⟨"u2", [""]⟩)])])]
    (by decide) "g" "a" "t" "1.0" (by decide) (by decide) (by decide)
    [(1, [("1.0", ⟨"u1", [""]⟩)]), (2, [("1.0", ⟨"u2", [""]⟩)])]
    1 2 [("1.0", ⟨"u1", [""]⟩)] [("1.0", ⟨"u2", [""]⟩)]
    ⟨"u1", [""]⟩ ⟨"u2", [""]⟩ (by decide) (by decide) (by decide)
    (by decide) (by decide) (by decide) (by decide)
    hmin false "u1" ""
  exact h.mpr ⟨rfl, by decide, Or.inl rfl⟩

/-! ## Lemmas: the coordinate pattern on wholly well-formed lines -/

theorem takeWhile_id {p : Char → Bool} (l : List Char) (h : ∀ ch ∈ l, p ch = true) :
    l.takeWhile p = l := by
  induction l with
  | nil => rfl
  | cons ch rest ih =>
    rw [List.takeWhile_cons, h ch (List.mem_cons_self ch rest),
      ih (fun x hx => h x (List.mem_cons_of_mem ch hx))]
    rfl

theorem dropWhile_id {p : Char → Bool} (l : List Char) (h : ∀ ch ∈ l, p ch = false) :
    l.dropWhile p = l := by
  cases l with
  | nil => rfl
  | cons ch rest =>
    rw [List.dropWhile_cons, h ch (List.mem_cons_self ch rest)]
    rfl

theorem fieldChar_not_space (ch : Char) (h : isFieldChar ch = true) :
    pyIsSpace ch = false := by
  cases hps : pyIsSpace ch
  · rfl
  · exfalso
    unfold pyIsSpace at hps
    simp only [Bool.or_eq_true, decide_eq_true_eq] at hps
    rcases hps with ((((h1 | h1) | h1) | h1) | h1) | h1 <;> subst h1 <;>
      exact absurd h (by decide)

theorem fieldChar_ne_hash (ch : Char) (h : isFieldChar ch = true) : ch ≠ '#' := by
  intro he
  subst he
  exact absurd h (by decide)

theorem pyStrip_id (l : List Char) (h : ∀ ch ∈ l, pyIsSpace ch = false) :
    pyStrip ⟨l⟩ = ⟨l⟩ := by
  unfold pyStrip
  show String.mk ((l.dropWhile pyIsSpace).reverse.dropWhile pyIsSpace).reverse = _
  rw [dropWhile_id l h,
    dropWhile_id l.reverse (fun ch hch => h ch (List.mem_reverse.mp hch)),
    List.reverse_reverse]

theorem stripComment_id (l : List Char) (h : ∀ ch ∈ l, (decide (ch ≠ '#')) = true) :
    stripComment ⟨l⟩ = ⟨l⟩ := by
  unfold stripComment
  show String.mk (l.takeWhile _) = _
  rw [takeWhile_id l h]

theorem fieldOk_ne (f : List Char) (h : fieldOk f = true) : f ≠ [] := by
  unfold fieldOk at h
  simp only [Bool.and_eq_true, decide_eq_true_eq] at h
  exact h.1

theorem fieldOk_all (f : List Char) (h : fieldOk f = true) :
    ∀ ch ∈ f, isFieldChar ch = true := by
  unfold fieldOk at h
  simp only [Bool.and_eq_true, decide_eq_true_eq, List.all_eq_true] at h
  exact h.2

theorem spanField_stop (w rest : List Char) (hw : ∀ ch ∈ w, isFieldChar ch = true)
    (hstop : rest = [] ∨ ∃ ch rest2, rest = ch :: rest2 ∧ isFieldChar ch = false) :
    spanField (w ++ rest) = (w, rest) := by
  induction w with
  | nil =>
    rw [List.nil_append]
    rcases hstop with h | ⟨ch, rest2, hr, hch⟩
    · subst h
      rfl
    · subst hr
      unfold spanField
      rw [hch]
      rfl
  | cons ch w' ih =>
    have hch : isFieldChar ch = true := hw ch (List.mem_cons_self ch w')
    rw [List.cons_append]
    unfold spanField
    rw [hch, ih (fun x hx => hw x (List.mem_cons_of_mem ch hx))]
    rfl

theorem matchFieldColon_append (w r : List Char)
    (hw : ∀ ch ∈ w, isFieldChar ch = true) (hne : w ≠ []) :
    matchFieldColon (w ++ ':' :: r) = some (w, r) := by
  unfold matchFieldColon
  rw [spanField_stop w (':' :: r) hw (Or.inr ⟨':', r, rfl, by decide⟩)]
  cases w with
  | nil => exact absurd rfl hne
  | cons ch w' => rfl

theorem matchFieldColon_nocolon (w : List Char)
    (hw : ∀ ch ∈ w, isFieldChar ch = true) : matchFieldColon w = none := by
  unfold matchFieldColon
  rw [show spanField w = (w, []) from by
    have hs := spanField_stop w [] hw (Or.inl rfl)
    rwa [List.append_nil] at hs]
  cases w with
  | nil => rfl
  | cons ch w' => rfl

theorem matchFieldColon_colon (X : List Char) : matchFieldColon (':' :: X) = none := by
  unfold matchFieldColon
  rw [show spanField (':' :: X) = ([], ':' :: X) from by
    unfold spanField
    rw [show isFieldChar ':' = false from by decide]
    rfl]
  rfl

theorem matchVer_none (w rest : List Char) (hw : ∀ ch ∈ w, isFieldChar ch = true)
    (hne : w ≠ [])
    (hstop : rest = [] ∨ ∃ ch rest2, rest = ch :: rest2 ∧ isFieldChar ch = false)
    (hnd : digitToken w = false) : matchVer (w ++ rest) = none := by
  cases w with
  | nil => exact absurd rfl hne
  | cons d wt =>
    rw [List.cons_append]
    unfold matchVer
    by_cases hd : d.isDigit
    · simp only [hd, if_true]
      cases wt with
      | nil =>
        rw [List.nil_append]
        rw [show spanField rest = ([], rest) from by
          have hs := spanField_stop [] rest (by simp) hstop
          simpa using hs]
      | cons x wt' =>
        have hdt : digitToken (d :: x :: wt') = d.isDigit := rfl
        rw [hdt] at hnd
        rw [hnd] at hd
        cases hd
    · simp [hd]

theorem matchGAVAt_one (w : List Char) (hw : ∀ ch ∈ w, isFieldChar ch = true) :
    matchGAVAt w = none := by
  unfold matchGAVAt
  rw [matchFieldColon_nocolon w hw]

theorem matchGAVAt_two (w v : List Char) (hw : ∀ ch ∈ w, isFieldChar ch = true)
    (hwne : w ≠ []) (hv : ∀ ch ∈ v, isFieldChar ch = true) :
    matchGAVAt (w ++ ':' :: v) = none := by
  unfold matchGAVAt
  simp only [matchFieldColon_append w v hw hwne, matchFieldColon_nocolon v hv]

theorem matchGAVAt_three (w x v : List Char) (hw : ∀ ch ∈ w, isFieldChar ch = true)
    (hwne : w ≠ []) (hx : ∀ ch ∈ x, isFieldChar ch = true) (hxne : x ≠ [])
    (hv : ∀ ch ∈ v, isFieldChar ch = true) :
    matchGAVAt (w ++ ':' :: (x ++ ':' :: v)) = none := by
  unfold matchGAVAt
  simp only [matchFieldColon_append w (x ++ ':' :: v) hw hwne,
    matchFieldColon_append x v hx hxne, matchFieldColon_nocolon v hv]

theorem matchGAVAt_four (w x y v : List Char) (hw : ∀ ch ∈ w, isFieldChar ch = true)
    (hwne : w ≠ []) (hx : ∀ ch ∈ x, isFieldChar ch = true) (hxne : x ≠ [])
    (hy : ∀ ch ∈ y, isFieldChar ch = true) (hyne : y ≠ [])
    (hv : ∀ ch ∈ v, isFieldChar ch = true) (hvne : v ≠ [])
    (hvd : digitToken v = false) :
    matchGAVAt (w ++ ':' :: (x ++ ':' :: (y ++ ':' :: v))) = none := by
  have hmv : matchVer v = none := by
    have hm := matchVer_none v [] hv hvne (Or.inl rfl) hvd
    rwa [List.append_nil] at hm
  unfold matchGAVAt
  simp only [matchFieldColon_append w (x ++ ':' :: (y ++ ':' :: v)) hw hwne,
    matchFieldColon_append x (y ++ ':' :: v) hx hxne,
    matchFieldColon_append y v hy hyne,
    matchFieldColon_nocolon v hv, hmv]

theorem matchGAVAt_five (w x y c v : List Char) (hw : ∀ ch ∈ w, isFieldChar ch = true)
    (hwne : w ≠ []) (hx : ∀ ch ∈ x, isFieldChar ch = true) (hxne : x ≠ [])
    (hy : ∀ ch ∈ y, isFieldChar ch = true) (hyne : y ≠ [])
    (hc : ∀ ch ∈ c, isFieldChar ch = true) (hcne : c ≠ [])
    (hv : ∀ ch ∈ v, isFieldChar ch = true) (hvne : v ≠ [])
    (hcd : digitToken c = false) (hvd : digitToken v = false) :
    matchGAVAt (w ++ ':' :: (x ++ ':' :: (y ++ ':' :: (c ++ ':' :: v)))) = none := by
  have hmv : matchVer v = none := by
    have hm := matchVer_none v [] hv hvne (Or.inl rfl) hvd
    rwa [List.append_nil] at hm
  have hmc : matchVer (c ++ ':' :: v) = none :=
    matchVer_none c (':' :: v) hc hcne (Or.inr ⟨':', v, rfl, by decide⟩) hcd
  unfold matchGAVAt
  simp only [matchFieldColon_append w (x ++ ':' :: (y ++ ':' :: (c ++ ':' :: v))) hw hwne,
    matchFieldColon_append x (y ++ ':' :: (c ++ ':' :: v)) hx hxne,
    matchFieldColon_append y (c ++ ':' :: v) hy hyne,
    matchFieldColon_append c v hc hcne, hmv, hmc]

theorem matchGAVAt_colon (X : List Char) : matchGAVAt (':' :: X) = none := by
  unfold matchGAVAt
  rw [matchFieldColon_colon X]

theorem searchGAV_colon (X : List Char) : searchGAV (':' :: X) = searchGAV X := by
  show (match matchGAVAt (':' :: X) with
    | some g => some g
    | none => searchGAV X) = searchGAV X
  rw [matchGAVAt_colon]

theorem searchGAV_skip (w rest : List Char)
    (hP : ∀ w', w' ≠ [] → (∀ ch ∈ w', isFieldChar ch = true) →
      matchGAVAt (w' ++ rest) = none)
    (hw : ∀ ch ∈ w, isFieldChar ch = true) :
    searchGAV (w ++ rest) = searchGAV rest := by
  induction w with
  | nil => rfl
  | cons ch w' ih =>
    rw [List.cons_append]
    show (match matchGAVAt (ch :: (w' ++ rest)) with
      | some g => some g
      | none => searchGAV (w' ++ rest)) = searchGAV rest
    rw [show matchGAVAt (ch :: (w' ++ rest)) = none from hP (ch :: w') (by simp) hw]
    exact ih (fun x hx => hw x (List.mem_cons_of_mem ch hx))

theorem searchGAV_fields5 (g a t c v : List Char)
    (hg : fieldOk g = true) (ha : fieldOk a = true) (ht : fieldOk t = true)
    (hc : fieldOk c = true) (hv : fieldOk v = true)
    (hcd : digitToken c = false) (hvd : digitToken v = false) :
    searchGAV (g ++ ':' :: (a ++ ':' :: (t ++ ':' :: (c ++ ':' :: v)))) = none := by
  rw [searchGAV_skip g _
    (fun w' hne hall => matchGAVAt_five w' a t c v hall hne
      (fieldOk_all a ha) (fieldOk_ne a ha) (fieldOk_all t ht) (fieldOk_ne t ht)
      (fieldOk_all c hc) (fieldOk_ne c hc) (fieldOk_all v hv) (fieldOk_ne v hv)
      hcd hvd)
    (fieldOk_all g hg)]
  rw [searchGAV_colon]
  rw [searchGAV_skip a _
    (fun w' hne hall => matchGAVAt_four w' t c v hall hne
      (fieldOk_all t ht) (fieldOk_ne t ht) (fieldOk_all c hc) (fieldOk_ne c hc)
      (fieldOk_all v hv) (fieldOk_ne v hv) hvd)
    (fieldOk_all a ha)]
  rw [searchGAV_colon]
  rw [searchGAV_skip t _
    (fun w' hne hall => matchGAVAt_three w' c v hall hne
      (fieldOk_all c hc) (fieldOk_ne c hc) (fieldOk_all v hv))
    (fieldOk_all t ht)]
  rw [searchGAV_colon]
  rw [searchGAV_skip c _
    (fun w' hne hall => matchGAVAt_two w' v hall hne (fieldOk_all v hv))
    (fieldOk_all c hc)]
  rw [searchGAV_colon]
  have hlast := searchGAV_skip v []
    (fun w' hne hall => by
      rw [List.append_nil]
      exact matchGAVAt_one w' hall)
    (fieldOk_all v hv)
  rw [List.append_nil] at hlast
  rw [hlast]
  rfl

theorem searchGAV_fields4 (g a t v : List Char)
    (hg : fieldOk g = true) (ha : fieldOk a = true) (ht : fieldOk t = true)
    (hv : fieldOk v = true) (hvd : digitToken v = false) :
    searchGAV (g ++ ':' :: (a ++ ':' :: (t ++ ':' :: v))) = none := by
  rw [searchGAV_skip g _
    (fun w' hne hall => matchGAVAt_four w' a t v hall hne
      (fieldOk_all a ha) (fieldOk_ne a ha) (fieldOk_all t ht) (fieldOk_ne t ht)
      (fieldOk_all v hv) (fieldOk_ne v hv) hvd)
    (fieldOk_all g hg)]
  rw [searchGAV_colon]
  rw [searchGAV_skip a _
    (fun w' hne hall => matchGAVAt_three w' t v hall hne
      (fieldOk_all t ht) (fieldOk_ne t ht) (fieldOk_all v hv))
    (fieldOk_all a ha)]
  rw [searchGAV_colon]
  rw [searchGAV_skip t _
    (fun w' hne hall => matchGAVAt_two w' v hall hne (fieldOk_all v hv))
    (fieldOk_all t ht)]
  rw [searchGAV_colon]
  have hlast := searchGAV_skip v []
    (fun w' hne hall => by
      rw [List.append_nil]
      exact matchGAVAt_one w' hall)
    (fieldOk_all v hv)
  rw [List.append_nil] at hlast
  rw [hlast]
  rfl

theorem parseDepLine_of_clean (S : List Char)
    (hchars : ∀ ch ∈ S, isFieldChar ch = true ∨ ch = ':')
    (hsearch : searchGAV S = none) : parseDepLine ⟨S⟩ = none := by
  have hhash : ∀ ch ∈ S, (decide (ch ≠ '#')) = true := by
    intro ch hch
    rcases hchars ch hch with h | h
    · simp [fieldChar_ne_hash ch h]
    · subst h
      decide
  have hspace : ∀ ch ∈ S, pyIsSpace ch = false := by
    intro ch hch
    rcases hchars ch hch with h | h
    · exact fieldChar_not_space ch h
    · subst h
      decide
  unfold parseDepLine
  rw [stripComment_id S hhash, pyStrip_id S hspace]
  show (match searchGAV S with
    | some g1 => MavenArtifact.createFromGAV ⟨g1⟩
    | none => none) = none
  rw [hsearch]

/-! ## Claim theorems: dependency-list parsing -/

/-- Counterexample to claim C8 as stated: the line `!!!a:b:c:1.0` fails
the documented coordinate grammar (its group field contains `!`), is
neither blank nor a comment, and yet is not skipped — the `re.search`
semantics extract the artifact `a:b:c:1.0` from the embedded matching
substring. -/
theorem malformed_line_counterexample :
    matchesCoordinateGrammar "!!!a:b:c:1.0" = false ∧
    pyStrip (stripComment "!!!a:b:c:1.0") ≠ "" ∧
    depListToArtifactList ["!!!a:b:c:1.0"] =
      [⟨"a", "b", "c", "", "1.0"⟩] := by
  refine ⟨by decide, by decide, by decide⟩

/-- Claim C8 (amended): the compile-scoped example line parses to exactly
the expected artifact with the scope dropped, `not a coordinate` yields no
artifact, and blank and pure-comment lines are always skipped; every line
is handled without raising (the parser is a total function), but a
malformed line that contains a substring matching the coordinate pattern
yields an artifact parsed from that substring rather than being skipped. -/
theorem grammar_parsing (line : String) :
    depListToArtifactList ["com.example:lib:jar:sources:1.2.3:compile  # note"] =
      [⟨"com.example", "lib", "jar", "sources", "1.2.3"⟩] ∧
    depListToArtifactList ["not a coordinate"] = [] ∧
    (pyStrip (stripComment line) = "" → parseDepLine line = none) := by
  refine ⟨by decide, by decide, ?_⟩
  intro h
  unfold parseDepLine
  rw [h]
  rfl

/-- Witness for `grammar_parsing`: a pure-comment line yields no
artifact. -/
theorem grammar_parsing_witness : parseDepLine "   # only a comment" = none :=
  (grammar_parsing "   # only a comment").2.2 (by decide)

/-- Counterexample to claim C10 as stated: the line
`com:lib:jar:cls:beta:1compile` has the documented form
`group:artifact:type:classifier:version:scope` with version `beta`
starting with a non-digit, yet `depListToArtifactList` yields an artifact
(parsed from the shifted substring `lib:jar:cls:beta:1compile`, whose
digit-leading scope plays the version role). -/
theorem version_digit_counterexample :
    ("com:lib:jar:cls:beta:1compile" : String) =
      "com" ++ ":" ++ "lib" ++ ":" ++ "jar" ++ ":" ++ "cls" ++ ":" ++ "beta" ++ ":" ++
        "1compile" ∧
    matchesCoordinateGrammar "com:lib:jar:cls:beta:1compile" = true ∧
    Char.isDigit 'b' = false ∧
    depListToArtifactList ["com:lib:jar:cls:beta:1compile"] =
      [⟨"lib", "jar", "cls", "beta", "1compile"⟩] := by
  refine ⟨by decide, by decide, by decide, by decide⟩

/-- Claim C10 (amended): for a scope-free line
`group:artifact:type[:classifier]:version` over the coordinate character
class, the parser yields no artifact when the version cannot serve as the
pattern's digit-led version token and (in the classifier form) neither can
the classifier; a digit-led later field (classifier or scope) can still
produce an artifact from a shifted substring, as the counterexample
shows. -/
theorem version_digit_requirement (g a t c v : List Char)
    (hg : fieldOk g = true) (ha : fieldOk a = true) (ht : fieldOk t = true)
    (hc : fieldOk c = true) (hv : fieldOk v = true)
    (hcd : digitToken c = false) (hvd : digitToken v = false) :
    depListToArtifactList [⟨g ++ ':' :: (a ++ ':' :: (t ++ ':' :: (c ++ ':' :: v)))⟩] =
      [] ∧
    depListToArtifactList [⟨g ++ ':' :: (a ++ ':' :: (t ++ ':' :: v))⟩] = [] := by
  have hfield : ∀ (f : List Char), fieldOk f = true →
      ∀ ch ∈ f, isFieldChar ch = true ∨ ch = ':' :=
    fun f hf ch hch => Or.inl (fieldOk_all f hf ch hch)
  constructor
  · have hchars : ∀ ch ∈ g ++ ':' :: (a ++ ':' :: (t ++ ':' :: (c ++ ':' :: v))),
        isFieldChar ch = true ∨ ch = ':' := by
      intro ch hch
      simp only [List.mem_append, List.mem_cons] at hch
      rcases hch with h | rfl | h | rfl | h | rfl | h | rfl | h
      · exact hfield g hg ch h
      · exact Or.inr rfl
      · exact hfield a ha ch h
      · exact Or.inr rfl
      · exact hfield t ht ch h
      · exact Or.inr rfl
      · exact hfield c hc ch h
      · exact Or.inr rfl
      · exact hfield v hv ch h
    show List.filterMap parseDepLine [_] = []
    rw [List.filterMap_cons,
      parseDepLine_of_clean _ hchars (searchGAV_fields5 g a t c v hg ha ht hc hv hcd hvd)]
    rfl
  · have hchars : ∀ ch ∈ g ++ ':' :: (a ++ ':' :: (t ++ ':' :: v)),
        isFieldChar ch = true ∨ ch = ':' := by
      intro ch hch
      simp only [List.mem_append, List.mem_cons] at hch
      rcases hch with h | rfl | h | rfl | h | rfl | h
      · exact hfield g hg ch h
      · exact Or.inr rfl
      · exact hfield a ha ch h
      · exact Or.inr rfl
      · exact hfield t ht ch h
      · exact Or.inr rfl
      · exact hfield v hv ch h
    show List.filterMap parseDepLine [_] = []
    rw [List.filterMap_cons,
      parseDepLine_of_clean _ hchars (searchGAV_fields4 g a t v hg ha ht hv hvd)]
    rfl

/-- Witness for `version_digit_requirement`: the line
`com:lib:jar:cls:beta` (non-digit classifier and version) yields no
artifact. -/
theorem version_digit_requirement_witness :
    depListToArtifactList
      [⟨['c', 'o', 'm'] ++ ':' :: (['l', 'i', 'b'] ++ ':' :: (['j', 'a', 'r'] ++ ':' ::
        (['c', 'l', 's'] ++ ':' :: ['b', 'e', 't', 'a'])))⟩] = [] :=
  (version_digit_requirement ['c', 'o', 'm'] ['l', 'i', 'b'] ['j', 'a', 'r']
    ['c', 'l', 's'] ['b', 'e', 't', 'a'] (by decide) (by decide) (by decide)
    (by decide) (by decide) (by decide) (by decide)).1

end MavenRepo
